import Mathlib

/-!
# app_swift: the audio queue between the Swift callback and the playback pump

A shallow embedding of `src/app_swift.c`.  The declarations keep the names of
the C source.  Conventions of the embedding:

* `int` variables are `Int`, the `unsigned int cfg_buffer_size` is a `Nat`;
  flags are C integers (set = non-zero).  Where the code assigns a difference
  taken from `cfg_buffer_size` to an `int` (lines 194 and 463) the value has
  to fit the 32 bits of an `int` (`int_of`); the counts and lengths, which
  stay below the capacity, are exact.
* The block `ps->q` is a function from byte offsets to byte values; the
  pointers `pq_r` and `pq_w` are kept as their offsets `pq_r - q`, `pq_w - q`.
* Strings are lists of character codes; writing past the end of one of the
  fixed-size character buffers is a `Fault`, and so is a length for `memcpy`
  that has left the range of `int`.
* Everything the channel, the clock and the synthesis engine decide is an
  input of the step it influences.
-/

namespace AppSwift

/-! ## Data model -/

/-- The constant `framesize` (line 93): bytes, and samples, in a full frame. -/
def framesize : Int := 20

/-- The struct `stuff` (lines 104-112), without the lock of `ASTOBJ_COMPONENTS`. -/
structure stuff where
  generating_done : Int
  q : Int → Nat
  pq_r : Int
  pq_w : Int
  qc : Int
  immediate_exit : Int

/-- The function `swift_init_stuff` (lines 134-143).  `heap` is the content of
the block that `malloc(cfg_buffer_size)` hands out. -/
def swift_init_stuff (heap : Int → Nat) : stuff :=
  { generating_done := 0
    q := heap
    pq_r := 0
    pq_w := 0
    qc := 0
    immediate_exit := 0 }

/-- The function `swift_generator_running` (lines 145-152):
`!ps->immediate_exit && (!ps->generating_done || ps->qc)`. -/
def swift_generator_running (ps : stuff) : Int :=
  if ps.immediate_exit = 0 ∧ (ps.generating_done = 0 ∨ ps.qc ≠ 0) then 1 else 0

/-- The function `swift_bytes_available` (lines 154-161). -/
def swift_bytes_available (ps : stuff) : Int :=
  ps.qc

/-- What ends the defined behaviour of the program: writing past the end of a
fixed-size character buffer, or a length that does not fit the `int` it is
assigned to and goes to `memcpy` from there. -/
inductive Fault where
  | buffer_overflow
  | int_overflow
  deriving DecidableEq, Repr

/-- The value that an `int` of 32 bits takes when `x` is assigned to it: `x`
reduced modulo 2^32 into the range from -2^31 to 2^31 - 1. -/
def int_wrap (x : Int) : Int :=
  (x + 2147483648) % 4294967296 - 2147483648

/-- The assignment of `x` to the `int` variables `spacefree` (line 194) and
`availatend` (line 463), where `x` is `cfg_buffer_size` minus the offset of a
cursor in the block, a number from 0 to `cfg_buffer_size`.  When `x` is in the
range of `int` the variable holds `x`.  When it is not, which takes a capacity
of 2^31 or more, the variable holds the negative number `int_wrap x`, the test
`len > spacefree` (`len > availatend`) that follows succeeds, and `memcpy` is
called with that negative number as its length: the step ends in a `Fault`. -/
def int_of (x : Int) : Except Fault Int :=
  if -2147483648 ≤ x ∧ x ≤ 2147483647 then Except.ok x else Except.error Fault.int_overflow

/-- The call `memcpy(q + dst, buf + off, n)`: the queue block after `n` bytes of
the chunk `buf`, from its offset `off` on, are stored at offset `dst`. -/
def memcpy (q : Int → Nat) (dst : Int) (buf : List Nat) (off n : Int) : Int → Nat :=
  fun a => if dst ≤ a ∧ a < dst + n then buf.getD (off + (a - dst)).toNat 0 else q a

/-- The bytes that `memcpy(frdata + k, q + src, n)` takes out of the queue block. -/
def memread (q : Int → Nat) (src n : Int) : List Nat :=
  (List.range n.toNat).map (fun (i : Nat) => q (src + (i : Int)))

/-! ## The writer: `swift_cb` -/

/-- The copy step of `swift_cb` (lines 194-213): the chunk `buf` of
`len = buf.length` bytes goes in at the write position, in two pieces when it
does not fit before the end of the block.  The step ends in a `Fault` when
`spacefree` does not fit its `int`. -/
def swift_cb_copy (cfg_buffer_size : Nat) (ps : stuff) (buf : List Nat) : Except Fault stuff :=
  let len : Int := buf.length
  match int_of ((cfg_buffer_size : Int) - ps.pq_w) with
  | Except.error e => Except.error e
  | Except.ok spacefree =>
      if len > spacefree then
        let ps1 : stuff :=
          { ps with q := memcpy ps.q ps.pq_w buf 0 spacefree, pq_w := 0, qc := ps.qc + spacefree }
        Except.ok
          { ps1 with
            q := memcpy ps1.q ps1.pq_w buf spacefree (len - spacefree)
            pq_w := ps1.pq_w + (len - spacefree)
            qc := ps1.qc + (len - spacefree) }
      else
        Except.ok
          { ps with q := memcpy ps.q ps.pq_w buf 0 len, pq_w := ps.pq_w + len, qc := ps.qc + len }

/-! ## The reader: the drain step of the pump -/

/-- The drain step of `app_exec` (lines 462-480) with `max_len` in the place of
`framesize`: `len = fmin(max_len, ps->qc)` bytes leave the queue, in two pieces
when they run over the end of the block.  The result is the new state and the
`len` bytes put in `myf.frdata`.  The step ends in a `Fault` when `availatend`
does not fit its `int`. -/
def pump_read (cfg_buffer_size : Nat) (max_len : Int) (ps : stuff) :
    Except Fault (stuff × List Nat) :=
  let len : Int := min max_len ps.qc
  match int_of ((cfg_buffer_size : Int) - ps.pq_r) with
  | Except.error e => Except.error e
  | Except.ok availatend =>
      if len > availatend then
        let frdata1 := memread ps.q ps.pq_r availatend
        let ps1 : stuff := { ps with qc := ps.qc - availatend, pq_r := 0 }
        let frdata2 := memread ps1.q ps1.pq_r (len - availatend)
        Except.ok
          ({ ps1 with qc := ps1.qc - (len - availatend), pq_r := ps1.pq_r + (len - availatend) },
            frdata1 ++ frdata2)
      else
        Except.ok ({ ps with qc := ps.qc - len, pq_r := ps.pq_r + len }, memread ps.q ps.pq_r len)

/-- One operation on the queue: the copy step for a chunk, or a drain step. -/
inductive RbOp where
  | write (buf : List Nat)
  | read (max_len : Nat)

/-- The chunks written by a sequence of operations, in order. -/
def rbWritten : List RbOp → List (List Nat)
  | [] => []
  | RbOp.write buf :: ops => buf :: rbWritten ops
  | RbOp.read _ :: ops => rbWritten ops

/-- Whether every write of the sequence is one that `swift_cb` lets through from
the state it meets: `len > 0` (line 174) and not `len + qc > cfg_buffer_size`
(line 179).  Nothing is asked of the operations after a step that ends in a
`Fault`: they are not performed. -/
def rbAdmissible (cfg_buffer_size : Nat) : List RbOp → stuff → Bool
  | [], _ => true
  | RbOp.write buf :: ops, ps =>
      decide (0 < buf.length) && decide ((buf.length : Int) + ps.qc ≤ cfg_buffer_size) &&
        (match swift_cb_copy cfg_buffer_size ps buf with
          | Except.ok ps1 => rbAdmissible cfg_buffer_size ops ps1
          | Except.error _ => true)
  | RbOp.read max_len :: ops, ps =>
      match pump_read cfg_buffer_size max_len ps with
      | Except.ok r => rbAdmissible cfg_buffer_size ops r.1
      | Except.error _ => true

/-- The state after a sequence of operations, and what the reads returned.  A
step that ends in a `Fault` ends the run: the result is the state it met and
no further read. -/
def rbRun (cfg_buffer_size : Nat) : List RbOp → stuff → stuff × List (List Nat)
  | [], ps => (ps, [])
  | RbOp.write buf :: ops, ps =>
      match swift_cb_copy cfg_buffer_size ps buf with
      | Except.ok ps1 => rbRun cfg_buffer_size ops ps1
      | Except.error _ => (ps, [])
  | RbOp.read max_len :: ops, ps =>
      match pump_read cfg_buffer_size max_len ps with
      | Except.ok r =>
          let rest := rbRun cfg_buffer_size ops r.1
          (rest.1, r.2 :: rest.2)
      | Except.error _ => (ps, [])

/-- Whether a step of the sequence ends in a `Fault`. -/
def rbFaults (cfg_buffer_size : Nat) : List RbOp → stuff → Bool
  | [], _ => false
  | RbOp.write buf :: ops, ps =>
      match swift_cb_copy cfg_buffer_size ps buf with
      | Except.ok ps1 => rbFaults cfg_buffer_size ops ps1
      | Except.error _ => true
  | RbOp.read max_len :: ops, ps =>
      match pump_read cfg_buffer_size max_len ps with
      | Except.ok r => rbFaults cfg_buffer_size ops r.1
      | Except.error _ => true

/-! ## The callback `swift_cb` -/

/-- What `swift_cb` takes from `swift.h`, which is not part of the repository:
two result codes, the test `SWIFT_FAILED`, and whether the module is built
with `_SWIFT_VER_6` (only then is the `SWIFT_EVENT_ERROR` branch compiled). -/
structure swift_h where
  SWIFT_SUCCESS : Int
  SWIFT_PORT_UNAVAILABLE : Int
  SWIFT_FAILED : Int → Bool
  SWIFT_VER_6 : Bool

/-- The event handed to `swift_cb`, by its `type`, with what the accessors
return for it: `swift_event_get_audio` gives `rv` and the chunk `buf` of
`len = buf.length` bytes; `swift_event_get_error` gives `rv` and `error_code`. -/
inductive swift_event where
  | SWIFT_EVENT_AUDIO (rv : Int) (buf : List Nat)
  | SWIFT_EVENT_END
  | SWIFT_EVENT_ERROR (rv : Int) (error_code : Int)
  | SWIFT_EVENT_OTHER

/-- Where a call of `swift_cb` stands when it gives the lock back: in `usleep`
for `sleepfor` microseconds with the object untouched (line 186), or returned
with the object as it left it and its result.  A call whose copy step ends in
a `Fault` does neither: it is `crashed`. -/
inductive cb_result where
  | sleeping (sleepfor : Int)
  | returned (ps : stuff) (rv : Int)
  | crashed

/-- One hold of the lock by `swift_cb` (lines 163-244): the test of the wait
loop (line 179) on the object as it is now and, when the loop is left, the rest
of the function. -/
def swift_cb_step (api : swift_h) (cfg_buffer_size : Nat) (ps : stuff) :
    swift_event → cb_result
  | swift_event.SWIFT_EVENT_AUDIO rv buf =>
      let len : Int := buf.length
      if api.SWIFT_FAILED rv = false ∧ len > 0 then
        if len + ps.qc > cfg_buffer_size ∧ ps.immediate_exit = 0 then
          cb_result.sleeping ((len - ((cfg_buffer_size : Int) - ps.qc)) * 125 + 125 * framesize)
        else if ps.immediate_exit ≠ 0 then
          cb_result.returned ps api.SWIFT_SUCCESS
        else
          match swift_cb_copy cfg_buffer_size ps buf with
          | Except.ok ps1 => cb_result.returned ps1 rv
          | Except.error _ => cb_result.crashed
      else
        cb_result.returned ps rv
  | swift_event.SWIFT_EVENT_END =>
      cb_result.returned { ps with generating_done := 1 } api.SWIFT_SUCCESS
  | swift_event.SWIFT_EVENT_ERROR rv error_code =>
      if api.SWIFT_VER_6 = true ∧ rv = api.SWIFT_SUCCESS ∧
          error_code = api.SWIFT_PORT_UNAVAILABLE then
        cb_result.returned { ps with generating_done := 1 } api.SWIFT_SUCCESS
      else
        cb_result.returned ps api.SWIFT_SUCCESS
  | swift_event.SWIFT_EVENT_OTHER =>
      cb_result.returned ps api.SWIFT_SUCCESS

/-- A whole call of `swift_cb`.  `seen` lists the object as the callback finds
it each time it takes the lock: on entry, then after each `usleep`.  The result
is `none` when the callback has not returned: it is still asleep after the last
of them, or it crashed. -/
def swift_cb (api : swift_h) (cfg_buffer_size : Nat) (ev : swift_event) :
    List stuff → Option (stuff × Int)
  | [] => none
  | ps :: later =>
      match swift_cb_step api cfg_buffer_size ps ev with
      | cb_result.sleeping _ => swift_cb api cfg_buffer_size ev later
      | cb_result.returned ps1 rv => some (ps1, rv)
      | cb_result.crashed => none

/-- The object after one hold of the lock by the callback.  A callback that
crashes has stored nothing: the object is as it found it. -/
def cb_after (ps : stuff) : cb_result → stuff
  | cb_result.sleeping _ => ps
  | cb_result.returned ps1 _ => ps1
  | cb_result.crashed => ps

/-! ## The digit collector -/

/-- The table `ast_dtmf_table` (lines 119-132); each `dtmf_res` is a string of
one character, kept as its code. -/
def ast_dtmf_table : List (Int × Nat) :=
  [(35, 35), (42, 42), (48, 48), (49, 49), (50, 50), (51, 51),
   (52, 52), (53, 53), (54, 54), (55, 55), (56, 56), (57, 57)]

/-- The search loop of `dtmf_conv` (lines 253-259) over the entries not yet
visited; `res` is the first character of the block `res`. -/
def dtmf_conv_loop (dtmf : Int) : List (Int × Nat) → Int → Nat → Nat
  | [], _, res => res
  | (ast_res, dtmf_res) :: later, dtmf_search_match, res =>
      if dtmf_search_match = 0 then
        if dtmf = ast_res then
          dtmf_conv_loop dtmf later (dtmf_search_match + 1) dtmf_res
        else
          dtmf_conv_loop dtmf later dtmf_search_match res
      else
        res

/-- The function `dtmf_conv` (lines 246-261): `*res` after the search, 0 when
the block still holds what `memset` put there. -/
def dtmf_conv (dtmf : Int) : Int :=
  (dtmf_conv_loop dtmf ast_dtmf_table 0 0 : Nat)

/-- The string that `sprintf(cnv, "%c", c)` leaves in `cnv`: one character, or
the empty string when the character is NUL. -/
def sprintf_cnv (c : Int) : List Nat :=
  if c % 256 = 0 then [] else [(c % 256).toNat]

/-- The call `strcat(dtmf_conversion, cnv)` on the block of 100 bytes
(line 265), which holds 99 characters and the final NUL. -/
def strcat_dtmf_conversion (dtmf_conversion cnv : List Nat) : Except Fault (List Nat) :=
  if dtmf_conversion.length + cnv.length + 1 ≤ 100 then
    Except.ok (dtmf_conversion ++ cnv)
  else
    Except.error Fault.buffer_overflow

/-- The loop of `listen_for_dtmf` (lines 272-282) with `remaining` passes left
before `i < max_digits` fails; the `i`-th call of `ast_waitfordigit` returns
`chan i`.  The result is the string and the number of calls made. -/
def listen_for_dtmf_loop (chan : Nat → Int) :
    Nat → Nat → List Nat → Except Fault (List Nat × Nat)
  | 0, i, dtmf_conversion => Except.ok (dtmf_conversion, i)
  | remaining + 1, i, dtmf_conversion =>
      let dtmf := chan i
      if dtmf = 0 then
        Except.ok (dtmf_conversion, i + 1)
      else
        match strcat_dtmf_conversion dtmf_conversion (sprintf_cnv (dtmf_conv dtmf)) with
        | Except.ok longer => listen_for_dtmf_loop chan remaining (i + 1) longer
        | Except.error e => Except.error e

/-- The function `listen_for_dtmf` (lines 263-284): the collected string and
the number of `ast_waitfordigit` calls it made.  The `timeout` goes to
`ast_waitfordigit`, whose results are `chan`. -/
def listen_for_dtmf (chan : Nat → Int) (_timeout : Int) (max_digits : Int) :
    Except Fault (List Nat × Nat) :=
  listen_for_dtmf_loop chan max_digits.toNat 0 []

/-! ## The session: `app_exec` from the pump loop on -/

/-- The type of a frame read from the channel, as far as `app_exec` tells
frame types apart (line 538). -/
inductive ast_frame_type where
  | AST_FRAME_DTMF
  | AST_FRAME_VOICE
  | AST_FRAME_CONTROL
  deriving DecidableEq, Repr

/-- The fields of `struct ast_frame` that `app_exec` reads. -/
structure ast_frame where
  frametype : ast_frame_type
  subclass : Int

/-- What is fixed for the duration of the pump loop: the module settings
`cfg_buffer_size` and `samplerate`, the arguments `timeout` and `max_digits`,
and the function `ast_samp2tv` of Asterisk (here with a result in
microseconds), which is not part of the repository. -/
structure settings where
  cfg_buffer_size : Nat
  samplerate : Int
  timeout : Int
  max_digits : Int
  ast_samp2tv : Int → Int → Int

/-- What the clock and the channel decide in one pass of the loop:
`ms` is `ast_tvdiff_ms(next, ast_tvnow())` (line 457), `ast_waitfor` and
`ast_read` are the results of these calls (lines 520, 529), and
`ast_waitfordigit k` is the result of the `k`-th call that `listen_for_dtmf`
makes in this pass.  The results of `ast_write` and `swift_port_stop` only
select a log line and are left out. -/
structure pump_input where
  ms : Int
  ast_waitfor : Int
  ast_read : Option ast_frame
  ast_waitfordigit : Nat → Int

/-- The variables of `app_exec` that the loop and the code after it use, and a
record of what the session did to the channel and the engine: the frames given
to `ast_write`, the values given to `pbx_builtin_setvar_helper` for
`SWIFT_DTMF`, the `max_digits` argument of each `listen_for_dtmf` call, the
number of `swift_port_stop` calls, and the number of times the
"negative bytes" line (line 510) was logged.  `next` is in microseconds. -/
structure session where
  ps : stuff
  res : Int
  alreadyran : Int
  rc : Option (List Nat)
  results : List Nat
  next : Int
  frames : List (List Nat)
  swift_dtmf : List (List Nat)
  listen_calls : List Int
  stops : Nat
  negative_qc : Nat

/-- The session when the loop is entered (lines 292, 331, 359, 448-454) at the
time `now`. -/
def app_exec_start (heap : Int → Nat) (now : Int) : session :=
  { ps := swift_init_stuff heap
    res := 0
    alreadyran := 0
    rc := none
    results := []
    next := now + 100000
    frames := []
    swift_dtmf := []
    listen_calls := []
    stops := 0
    negative_qc := 0 }

/-- A `sprintf` into `char results[20]` that produces the bytes `out` and the
final NUL; the result is the C string then found in `results`. -/
def sprintf_results (out : List Nat) : Except Fault (List Nat) :=
  if out.length + 1 ≤ 20 then
    Except.ok (out.takeWhile (fun c => decide (c ≠ 0)))
  else
    Except.error Fault.buffer_overflow

/-- The drain of the deadline branch (lines 461-514): one hold of the lock, in
which a frame is taken from the queue and written to the channel, and the move
of the deadline that follows it. -/
def app_exec_drain (cfg : settings) (s : session) : Except Fault session :=
  let len : Int := min framesize s.ps.qc
  match pump_read cfg.cfg_buffer_size framesize s.ps with
  | Except.ok r =>
      Except.ok
        { s with
          ps := r.1
          frames := s.frames ++ [r.2]
          negative_qc := if r.1.qc < 0 then s.negative_qc + 1 else s.negative_qc
          next := s.next + cfg.ast_samp2tv len cfg.samplerate }
  | Except.error e => Except.error e

/-- The deadline branch of the loop body (lines 460-518). -/
def app_exec_deadline (cfg : settings) (s : session) : Except Fault session :=
  if swift_bytes_available s.ps > 0 then
    app_exec_drain cfg s
  else
    Except.ok { s with next := s.next + cfg.ast_samp2tv (framesize / 2) cfg.samplerate }

/-- The digit branch of the loop body (lines 538-562) for the frame `f`. -/
def app_exec_dtmf (cfg : settings) (inp : pump_input) (f : ast_frame) (s : session) :
    Except Fault session :=
  let originalDTMF : Nat := (f.subclass % 256).toNat
  let s1 : session :=
    { s with alreadyran := 1, res := 0, ps := { s.ps with immediate_exit := 1 } }
  let listened : Except Fault session :=
    if cfg.max_digits > 1 then
      match listen_for_dtmf inp.ast_waitfordigit cfg.timeout (cfg.max_digits - 1) with
      | Except.ok r =>
          Except.ok { s1 with rc := some r.1,
                              listen_calls := s1.listen_calls ++ [cfg.max_digits - 1] }
      | Except.error e => Except.error e
    else
      Except.ok s1
  match listened with
  | Except.error e => Except.error e
  | Except.ok s2 =>
      let out : List Nat :=
        match s2.rc with
        | some rc => originalDTMF :: rc
        | none => [originalDTMF]
      match sprintf_results out with
      | Except.ok results =>
          Except.ok { s2 with results := results, swift_dtmf := s2.swift_dtmf ++ [results] }
      | Except.error e => Except.error e

/-- The waiting branch of the loop body (lines 520-568). -/
def app_exec_wait (cfg : settings) (inp : pump_input) (s : session) : Except Fault session :=
  let ms := inp.ast_waitfor
  if ms < 0 then
    Except.ok { s with res := -1, ps := { s.ps with immediate_exit := 1 } }
  else if ms ≠ 0 then
    match inp.ast_read with
    | none => Except.ok { s with res := -1, ps := { s.ps with immediate_exit := 1 } }
    | some f =>
        if f.frametype = ast_frame_type.AST_FRAME_DTMF ∧ cfg.timeout > 0 ∧
            cfg.max_digits > 0 then
          app_exec_dtmf cfg inp f s
        else
          Except.ok s
  else
    Except.ok s

/-- The stop request at the end of the loop body (lines 571-579). -/
def app_exec_stop (s : session) : session :=
  if s.ps.immediate_exit ≠ 0 ∧ s.ps.generating_done = 0 then
    { s with stops := s.stops + 1 }
  else
    s

/-- One pass through the body of the loop (lines 457-579) during which the
callback thread does not get the lock: the body and the stop check find the
object as the loop test left it.  The pass with the callback thread at work is
`app_exec_pass`. -/
def app_exec_iteration (cfg : settings) (inp : pump_input) (s : session) :
    Except Fault session :=
  if inp.ms ≤ 0 then
    match app_exec_deadline cfg s with
    | Except.ok s1 => Except.ok (app_exec_stop s1)
    | Except.error e => Except.error e
  else
    match app_exec_wait cfg inp s with
    | Except.ok s1 => Except.ok (app_exec_stop s1)
    | Except.error e => Except.error e

/-- The object after the callback thread has held the lock once for each of
the events `evs`, in order; a `Fault` when one of these calls crashes. -/
def swift_cb_steps (api : swift_h) (cfg_buffer_size : Nat) :
    List swift_event → stuff → Except Fault stuff
  | [], ps => Except.ok ps
  | ev :: later, ps =>
      match swift_cb_step api cfg_buffer_size ps ev with
      | cb_result.crashed => Except.error Fault.int_overflow
      | r => swift_cb_steps api cfg_buffer_size later (cb_after ps r)

/-- The holds of the lock by the callback thread during one pass of the loop,
by the place where the main thread is without the lock:
`after_test` come after the loop test (line 456) and before the body takes the
lock, that is before line 460 in the deadline branch and during `ast_waitfor`
and `ast_read` in the waiting branch (lines 520, 529);
`before_drain` come between the test of line 460 and the drain that follows
it (line 461), and only when that test has succeeded;
`before_stop` come after the body has given the lock back and before the stop
check (line 571), `listen_for_dtmf` and the rest of the digit branch
included. -/
structure pass_callbacks where
  after_test : List swift_event
  before_drain : List swift_event
  before_stop : List swift_event

/-- The body of the loop up to the stop check (lines 457-569), entered with the
session `s`; the callback thread holds the lock for the events `before_drain`
between the test of line 460 and the drain. -/
def app_exec_body (api : swift_h) (cfg : settings) (before_drain : List swift_event)
    (inp : pump_input) (s : session) : Except Fault session :=
  if inp.ms ≤ 0 then
    if swift_bytes_available s.ps > 0 then
      match swift_cb_steps api cfg.cfg_buffer_size before_drain s.ps with
      | Except.ok ps1 => app_exec_drain cfg { s with ps := ps1 }
      | Except.error e => Except.error e
    else
      Except.ok { s with next := s.next + cfg.ast_samp2tv (framesize / 2) cfg.samplerate }
  else
    app_exec_wait cfg inp s

/-- One pass through the body of the loop (lines 457-579) with the callback
thread at work: each part of the pass finds the object as the holds of the
lock that came before it have left it. -/
def app_exec_pass (api : swift_h) (cfg : settings) (cbs : pass_callbacks) (inp : pump_input)
    (s : session) : Except Fault session :=
  match swift_cb_steps api cfg.cfg_buffer_size cbs.after_test s.ps with
  | Except.error e => Except.error e
  | Except.ok ps1 =>
      match app_exec_body api cfg cbs.before_drain inp { s with ps := ps1 } with
      | Except.error e => Except.error e
      | Except.ok s2 =>
          match swift_cb_steps api cfg.cfg_buffer_size cbs.before_stop s2.ps with
          | Except.error e => Except.error e
          | Except.ok ps3 => Except.ok (app_exec_stop { s2 with ps := ps3 })

/-- What happens to the session, in order: the callback thread holds the lock
once for the event it is delivering, or the main thread comes to the head of
the loop. -/
inductive session_event where
  | callback (ev : swift_event)
  | pump (inp : pump_input)

/-- The loop `while (swift_generator_running(ps))` (lines 456-580) with the
callback thread working between its passes.  The result is the session the loop
is left with, or `none` when it is still going after the last event; a `Fault`
when a pass or a callback ends in one. -/
def app_exec_loop (api : swift_h) (cfg : settings) :
    List session_event → session → Except Fault (Option session)
  | [], s => Except.ok (if swift_generator_running s.ps = 0 then some s else none)
  | session_event.callback ev :: later, s =>
      match swift_cb_step api cfg.cfg_buffer_size s.ps ev with
      | cb_result.crashed => Except.error Fault.int_overflow
      | r => app_exec_loop api cfg later { s with ps := cb_after s.ps r }
  | session_event.pump inp :: later, s =>
      if swift_generator_running s.ps = 0 then
        Except.ok (some s)
      else
        match app_exec_iteration cfg inp s with
        | Except.ok s1 => app_exec_loop api cfg later s1
        | Except.error e => Except.error e

/-- The digit collection after the loop (lines 581-589); `chan` gives the
results of the `ast_waitfordigit` calls. -/
def app_exec_listen (cfg : settings) (chan : Nat → Int) (s : session) :
    Except Fault session :=
  if s.alreadyran = 0 ∧ cfg.timeout > 0 ∧ cfg.max_digits > 0 then
    match listen_for_dtmf chan cfg.timeout cfg.max_digits with
    | Except.ok r =>
        match sprintf_results r.1 with
        | Except.ok results =>
            Except.ok { s with rc := some r.1,
                               listen_calls := s.listen_calls ++ [cfg.max_digits],
                               results := results,
                               swift_dtmf := s.swift_dtmf ++ [results] }
        | Except.error e => Except.error e
    | Except.error e => Except.error e
  else
    Except.ok s

/-- The sessions that the callback thread and passes of the loop body can
produce from the one the loop is entered with.  A pass is not tied to the loop
test, so that a hold of the lock by the callback inside a pass is the same
hold before or after it as far as the object goes.  A callback that crashes
adds no session: `cb_after` gives the object back as it was. -/
inductive Reachable (api : swift_h) (cfg : settings) (heap : Int → Nat) (now : Int) :
    session → Prop where
  | start : Reachable api cfg heap now (app_exec_start heap now)
  | callback (s : session) (ev : swift_event) :
      Reachable api cfg heap now s →
      Reachable api cfg heap now
        { s with ps := cb_after s.ps (swift_cb_step api cfg.cfg_buffer_size s.ps ev) }
  | pump (s s1 : session) (inp : pump_input) :
      Reachable api cfg heap now s →
      app_exec_iteration cfg inp s = Except.ok s1 →
      Reachable api cfg heap now s1

/-! ## Proof devices for the queue -/

/-- Offset in the block of the position `x`, counted from the start of the
block and running over its end at most once. -/
def wrapOff (cfg_buffer_size : Nat) (x : Int) : Int :=
  if x < cfg_buffer_size then x else x - cfg_buffer_size

/-- The queued bytes, oldest first: the `qc` bytes from the read position on,
continuing at the start of the block after its end. -/
def queued (cfg_buffer_size : Nat) (ps : stuff) : List Nat :=
  (List.range ps.qc.toNat).map
    (fun (i : Nat) => ps.q (wrapOff cfg_buffer_size (ps.pq_r + (i : Int))))

/-- Both positions lie in the block or right after its last byte, the count is
between 0 and the capacity, and the write position is `qc` bytes after the read
position, around the end of the block.  A queue that is not as
`swift_init_stuff` left it has a capacity in the range of `int`: a copy step
has been through without a `Fault`. -/
def RbInv (cfg_buffer_size : Nat) (ps : stuff) : Prop :=
  0 ≤ ps.pq_r ∧ ps.pq_r ≤ cfg_buffer_size ∧ 0 ≤ ps.pq_w ∧ ps.pq_w ≤ cfg_buffer_size ∧
  0 ≤ ps.qc ∧ ps.qc ≤ cfg_buffer_size ∧
  (ps.pq_r + ps.qc = ps.pq_w ∨ ps.pq_r + ps.qc = ps.pq_w + cfg_buffer_size ∨
    ps.pq_r + ps.qc = ps.pq_w + 2 * cfg_buffer_size) ∧
  ((ps.pq_r = 0 ∧ ps.pq_w = 0 ∧ ps.qc = 0) ∨ (cfg_buffer_size : Int) ≤ 2147483647)

/-- The operations of the example of a split write and a split read: capacity
10, write 6 bytes, read 4, write 6 more, read all. -/
def wrapExample : List RbOp :=
  [RbOp.write [1, 2, 3, 4, 5, 6], RbOp.read 4, RbOp.write [7, 8, 9, 10, 11, 12], RbOp.read 20]

/-- An instance of what `swift.h` provides, for the examples: success is 0, the
codes below 0 are failures, built with `_SWIFT_VER_6`. -/
def exampleApi : swift_h :=
  { SWIFT_SUCCESS := 0
    SWIFT_PORT_UNAVAILABLE := -14
    SWIFT_FAILED := fun r => decide (r < 0)
    SWIFT_VER_6 := true }

/-- Settings for the examples: a queue of 100 bytes, 8000 samples a second,
`timeout` 3000 and `max_digits` 4. -/
def exampleCfg : settings :=
  { cfg_buffer_size := 100
    samplerate := 8000
    timeout := 3000
    max_digits := 4
    ast_samp2tv := fun nsamp rate => (nsamp / rate) * 1000000 + (nsamp % rate) * (1000000 / rate) }

/-- A pass that finds the deadline reached. -/
def deadlineInput : pump_input :=
  { ms := 0, ast_waitfor := 0, ast_read := none, ast_waitfordigit := fun _ => 0 }

/-- The session after the callback has queued the chunk 1, 2, 3 and one pass at
the deadline has written it out. -/
def exampleSession : session :=
  match app_exec_iteration exampleCfg deadlineInput
    { app_exec_start (fun _ => 0) 0 with
      ps := cb_after (app_exec_start (fun _ => 0) 0).ps
        (swift_cb_step exampleApi exampleCfg.cfg_buffer_size (app_exec_start (fun _ => 0) 0).ps
          (swift_event.SWIFT_EVENT_AUDIO 0 [1, 2, 3])) } with
  | Except.ok s1 => s1
  | Except.error _ => app_exec_start (fun _ => 0) 0


/-- A queue with `generating_done` set and nothing queued. -/
def doneStuff : stuff :=
  { swift_init_stuff (fun _ => 0) with generating_done := 1 }

/-- The queue of capacity 10 after 6 bytes, the values 1 to 6, were written and
4 of them read, with `generating_done` set: the bytes 5 and 6 are queued at the
offsets 4 and 5. -/
def wrapDoneStuff : stuff :=
  { (rbRun 10 [RbOp.write [1, 2, 3, 4, 5, 6], RbOp.read 4] (swift_init_stuff (fun _ => 0))).1 with
    generating_done := 1 }

/-- A full queue of capacity 4 with `immediate_exit` unset: a chunk has to wait. -/
def fullStuff : stuff :=
  { swift_init_stuff (fun _ => 0) with qc := 4, pq_w := 4 }

/-- A pass in which `ast_waitfor` reports a hangup. -/
def hangupInput : pump_input :=
  { ms := 20, ast_waitfor := -1, ast_read := none, ast_waitfordigit := fun _ => -1 }

/-- A pass in which `ast_waitfor` reports an event and `ast_read` returns NULL. -/
def nullFrameInput : pump_input :=
  { ms := 20, ast_waitfor := 1, ast_read := none, ast_waitfordigit := fun _ => -1 }

/-- A pass in which `ast_waitfor` times out. -/
def timeoutInput : pump_input :=
  { ms := 20, ast_waitfor := 0, ast_read := none, ast_waitfordigit := fun _ => 0 }

/-- The settings of `exampleCfg` with `max_digits = 20`. -/
def twentyDigitsCfg : settings :=
  { exampleCfg with max_digits := 20 }

/-- A pass in which the caller presses `1` (code 49) during playback and then
`1` again at every `ast_waitfordigit`. -/
def digitInput : pump_input :=
  { ms := 20
    ast_waitfor := 1
    ast_read := some { frametype := ast_frame_type.AST_FRAME_DTMF, subclass := 49 }
    ast_waitfordigit := fun _ => 49 }

/-- A pass in which the caller presses `1` during playback, then `2` and `3`,
and then lets `ast_waitfordigit` time out. -/
def threeDigitsInput : pump_input :=
  { ms := 20
    ast_waitfor := 1
    ast_read := some { frametype := ast_frame_type.AST_FRAME_DTMF, subclass := 49 }
    ast_waitfordigit := fun k => if k = 0 then 50 else if k = 1 then 51 else 0 }

/-- The session of capacity 100 (`exampleCfg`) after the callback has queued a
chunk of 40 bytes, the values 0 to 39. -/
def fortyQueued : session :=
  { app_exec_start (fun _ => 0) 0 with
    ps := cb_after (app_exec_start (fun _ => 0) 0).ps
      (swift_cb_step exampleApi exampleCfg.cfg_buffer_size (app_exec_start (fun _ => 0) 0).ps
        (swift_event.SWIFT_EVENT_AUDIO 0 (List.range 40))) }

/-- The session `fortyQueued` after the end-of-stream event. -/
def fortyQueuedDone : session :=
  { fortyQueued with
    ps := cb_after fortyQueued.ps
      (swift_cb_step exampleApi exampleCfg.cfg_buffer_size fortyQueued.ps
        swift_event.SWIFT_EVENT_END) }

/-! ## Further examples and devices -/

/-- The codes of the table `ast_dtmf_table`. -/
def dtmf_table_codes : List Int :=
  ast_dtmf_table.map Prod.fst

/-- One write that fills a queue of capacity 4. -/
def fillExample : List RbOp :=
  [RbOp.write [1, 2, 3, 4]]

/-- The caller presses `A` (code 65), which is not in the table, then `5`
(code 53), and then lets the wait time out. -/
def letterThenFive : Nat → Int :=
  fun k => if k = 0 then 65 else if k = 1 then 53 else 0

/-! ## The setup of `app_exec` and its way out -/

/-- What the engine and the channel answer during the setup of `app_exec`
(lines 363-446): whether `swift_engine_open`, `swift_port_open` and
`swift_port_set_voice_by_name` return a pointer that is not NULL, the results
of `swift_port_speak_text` and of `ast_set_write_format`, and the
`chan->writeformat` saved in `old_writeformat` (line 432). -/
structure setup_input where
  swift_engine_open : Bool
  swift_port_open : Bool
  swift_port_set_voice_by_name : Bool
  swift_port_speak_text : Int
  ast_set_write_format : Int
  writeformat : Int

/-- What `app_exec` has done on its way out, and the value it returns. -/
structure app_exec_exit where
  res : Int
  port_closed : Bool
  engine_closed : Bool
  queue_freed : Bool
  format_restored : Bool
  module_user_removed : Bool

/-- The code from the label `exception` on (lines 619-646), as compiled for
Asterisk 1.4, 1.6 and 1.8: `port` and `engine` tell whether the pointers are
not NULL. -/
def app_exec_exception (port engine : Bool) (res old_writeformat : Int) : app_exec_exit :=
  { res := res
    port_closed := port
    engine_closed := engine
    queue_freed := true
    format_restored := decide (res = 0 ∧ old_writeformat ≠ 0)
    module_user_removed := true }

/-- The setup of `app_exec` (lines 358-446) after the test of the text: the
way out taken when a step fails, `none` when the loop is reached.  `res` still
has the value 0 of line 292, `port` the value NULL of line 323 and
`old_writeformat` the value 0 of line 304 until they are assigned. -/
def app_exec_setup (api : swift_h) (su : setup_input) : Option app_exec_exit :=
  let res : Int := 0
  if su.swift_engine_open = false then
    some (app_exec_exception false false res 0)
  else if su.swift_port_open = false then
    some (app_exec_exception false true res 0)
  else if su.swift_port_set_voice_by_name = false then
    some (app_exec_exception true true res 0)
  else if api.SWIFT_FAILED su.swift_port_speak_text = true then
    some (app_exec_exception true true res 0)
  else if su.ast_set_write_format < 0 then
    some (app_exec_exception true true res su.writeformat)
  else
    none

/-- The way out of a session that went through the loop and the code after it
(lines 590-646) and ended as `s`. -/
def app_exec_end (su : setup_input) (s : session) : app_exec_exit :=
  app_exec_exception true true s.res su.writeformat

/-- A setup in which every step succeeds. -/
def goodSetup : setup_input :=
  { swift_engine_open := true
    swift_port_open := true
    swift_port_set_voice_by_name := true
    swift_port_speak_text := 0
    ast_set_write_format := 0
    writeformat := 4 }

/-! ## Sessions inside the loop -/

/-- The sessions met at the head of the loop of `app_exec`, from the one it is
entered with, for every sequence of channel and synthesis events: the callback
thread holds the lock for an event between the stop check and the loop test,
or the main thread finds `swift_generator_running` non-zero in the loop test
and goes through the body, with the callback thread holding the lock wherever
the main thread does not (`app_exec_pass`). -/
inductive LoopReachable (api : swift_h) (cfg : settings) (heap : Int → Nat) (now : Int) :
    session → Prop where
  | start : LoopReachable api cfg heap now (app_exec_start heap now)
  | callback (s : session) (ev : swift_event) :
      LoopReachable api cfg heap now s →
      LoopReachable api cfg heap now
        { s with ps := cb_after s.ps (swift_cb_step api cfg.cfg_buffer_size s.ps ev) }
  | pump (s s1 : session) (cbs : pass_callbacks) (inp : pump_input) :
      LoopReachable api cfg heap now s →
      swift_generator_running s.ps ≠ 0 →
      app_exec_pass api cfg cbs inp s = Except.ok s1 →
      LoopReachable api cfg heap now s1

/-- No hold of the lock by the callback thread inside the pass. -/
def noCallbacks : pass_callbacks :=
  { after_test := [], before_drain := [], before_stop := [] }

/-- The end-of-stream event is delivered while the main thread is in
`ast_waitfor`. -/
def endDuringWait : pass_callbacks :=
  { after_test := [swift_event.SWIFT_EVENT_END], before_drain := [], before_stop := [] }

/-- The session after a first pass in which the end-of-stream event came
during `ast_waitfor` and `ast_waitfor` then reported a hangup: `immediate_exit`
and `generating_done` are both set at the stop check. -/
def endThenHangup : session :=
  { app_exec_start (fun _ => 0) 0 with
    res := -1
    ps := { (app_exec_start (fun _ => 0) 0).ps with generating_done := 1, immediate_exit := 1 } }

/-- The session after the first pass of `exampleCfg` met a hangup. -/
def hungUpSession : session :=
  app_exec_stop
    { app_exec_start (fun _ => 0) 0 with
      res := -1
      ps := { (app_exec_start (fun _ => 0) 0).ps with immediate_exit := 1 } }

/-! ## Pacing -/

/-- Modelled from the spec: `ast_samp2tv` of Asterisk's `time.h`, which is not
part of the repository.  The spec has the deadline advance "by the playback
duration of the bytes actually emitted (sample count / sample rate)"; the
duration of `nsamp` samples at `rate` samples a second is given here in
microseconds. -/
def ast_samp2tv (nsamp rate : Int) : Int :=
  nsamp * 1000000 / rate

/-- The value that `load_module` gives to `samplerate` (line 670). -/
def load_module_samplerate : Int := 8000

/-- Settings as `load_module` leaves `samplerate`, with the modelled
`ast_samp2tv`. -/
def Paced (cfg : settings) : Prop :=
  cfg.samplerate = load_module_samplerate ∧ cfg.ast_samp2tv = ast_samp2tv

/-- The settings of `exampleCfg` with the modelled `ast_samp2tv`. -/
def pacedCfg : settings :=
  { exampleCfg with ast_samp2tv := ast_samp2tv }

/-- The session after the events `evs`, every pass of the loop body being run
from the session it meets. -/
def session_run (api : swift_h) (cfg : settings) :
    List session_event → session → Except Fault session
  | [], s => Except.ok s
  | session_event.callback ev :: later, s =>
      match swift_cb_step api cfg.cfg_buffer_size s.ps ev with
      | cb_result.crashed => Except.error Fault.int_overflow
      | r => session_run api cfg later { s with ps := cb_after s.ps r }
  | session_event.pump inp :: later, s =>
      match app_exec_iteration cfg inp s with
      | Except.ok s1 => session_run api cfg later s1
      | Except.error e => Except.error e

/-- Whether no pass of the events `evs` finds the deadline reached and nothing
queued. -/
def noUnderrun (api : swift_h) (cfg : settings) : List session_event → session → Bool
  | [], _ => true
  | session_event.callback ev :: later, s =>
      match swift_cb_step api cfg.cfg_buffer_size s.ps ev with
      | cb_result.crashed => true
      | r => noUnderrun api cfg later { s with ps := cb_after s.ps r }
  | session_event.pump inp :: later, s =>
      (decide (inp.ms > 0) || decide (s.ps.qc > 0)) &&
        (match app_exec_iteration cfg inp s with
          | Except.ok s1 => noUnderrun api cfg later s1
          | Except.error _ => true)

/-- The number of bytes in a list of frames. -/
def frameBytes (frames : List (List Nat)) : Int :=
  (frames.flatten.length : Int)

/-- The wait results that come before the first timeout (result 0) among the
`n` results `chan i`, `chan (i + 1)`, ... -/
def pressedBefore (chan : Nat → Int) (i n : Nat) : List Int :=
  ((List.range n).map (fun j => chan (i + j))).takeWhile (fun d => decide (d ≠ 0))

/-! ## Lemmas on lists and on the two queue steps -/

theorem map_range_congr {α : Type} (n : Nat) (f g : Nat → α)
    (h : ∀ i, i < n → f i = g i) :
    (List.range n).map f = (List.range n).map g :=
  List.map_congr_left (fun i hi => h i (List.mem_range.mp hi))

theorem map_range_add {α : Type} (a b : Nat) (f : Nat → α) :
    (List.range (a + b)).map f
      = (List.range a).map f ++ (List.range b).map (fun j => f (a + j)) := by
  rw [List.range_add, List.map_append, List.map_map]
  rfl

theorem map_range_getD (buf : List Nat) :
    (List.range buf.length).map (fun j => buf.getD j 0) = buf := by
  apply List.ext_getElem
  · simp
  · intro i h1 h2
    simp [List.getD_eq_getElem?_getD, List.getElem?_eq_getElem h2]

theorem int_of_ok (x : Int) (h1 : -2147483648 ≤ x) (h2 : x ≤ 2147483647) :
    int_of x = Except.ok x := by
  unfold int_of
  rw [if_pos ⟨h1, h2⟩]

theorem int_of_eq_ok (x v : Int) (h : int_of x = Except.ok v) :
    v = x ∧ -2147483648 ≤ x ∧ x ≤ 2147483647 := by
  unfold int_of at h
  split_ifs at h with hc
  injection h with h
  exact ⟨h.symm, hc⟩

/-- The assignment `int_of` against the 32 bits of an `int`: when it gives a
value, that is the value the `int` takes; for the difference between an
`unsigned int` capacity and a cursor offset inside the block it ends in a
`Fault` exactly when that difference is 2^31 or more, and the `int` is then
negative. -/
theorem int_of_int_wrap (x : Int) :
    (∀ v, int_of x = Except.ok v → v = x ∧ int_wrap x = x) ∧
      (0 ≤ x → x < 4294967296 →
        (int_of x = Except.error Fault.int_overflow ↔ 2147483648 ≤ x) ∧
        (2147483648 ≤ x → int_wrap x = x - 4294967296 ∧ int_wrap x < 0)) := by
  constructor
  · intro v h
    obtain ⟨h1, h2, h3⟩ := int_of_eq_ok x v h
    refine ⟨h1, ?_⟩
    unfold int_wrap
    omega
  · intro h0 h32
    constructor
    · unfold int_of
      split_ifs with hc
      · constructor
        · intro h
          exact absurd h (by simp)
        · intro h
          omega
      · constructor
        · intro _
          by_contra hlt
          exact hc ⟨by omega, by omega⟩
        · intro _
          rfl
    · intro h31
      unfold int_wrap
      omega

theorem rbInv_init (C : Nat) (heap : Int → Nat) : RbInv C (swift_init_stuff heap) := by
  unfold RbInv swift_init_stuff
  simp

theorem queued_length (C : Nat) (ps : stuff) : (queued C ps).length = ps.qc.toNat := by
  unfold queued
  simp

/-- A copy step that goes through, on a well-formed queue with room for the
chunk: the queue stays well-formed, the queued bytes are the old ones followed
by the chunk, the count grows by `len`, the write cursor moves by `len` around
the end of the block, the chunk is in the block from the old write position
on, no other byte of the block has changed, and the read cursor and both flags
are as they were. -/
theorem swift_cb_copy_ok (C : Nat) (ps ps1 : stuff) (buf : List Nat)
    (hinv : RbInv C ps) (hfit : (buf.length : Int) + ps.qc ≤ C)
    (h : swift_cb_copy C ps buf = Except.ok ps1) :
    RbInv C ps1 ∧
      queued C ps1 = queued C ps ++ buf ∧
      ps1.qc = ps.qc + buf.length ∧
      ps1.pq_w = (if (buf.length : Int) > (C : Int) - ps.pq_w
        then (buf.length : Int) - ((C : Int) - ps.pq_w) else ps.pq_w + buf.length) ∧
      (∀ j : Nat, j < buf.length →
        ps1.q (wrapOff C (ps.pq_w + (j : Int))) = buf.getD j 0) ∧
      (∀ a : Int, (∀ j : Nat, j < buf.length → a ≠ wrapOff C (ps.pq_w + (j : Int))) →
        ps1.q a = ps.q a) ∧
      ps1.pq_r = ps.pq_r ∧ ps1.generating_done = ps.generating_done ∧
      ps1.immediate_exit = ps.immediate_exit := by
  obtain ⟨hr0, hrC, hw0, hwC, hq0, hqC, hcong, hcap⟩ := hinv
  unfold swift_cb_copy at h
  simp only [] at h
  split at h
  · exact absurd h (by simp)
  · rename_i spacefree hsf
    obtain ⟨hv, _, hmax⟩ := int_of_eq_ok _ _ hsf
    subst hv
    split_ifs at h with hbig
    · injection h with h
      subst h
      refine ⟨?_, ?_, ?_, ?_, ?_, ?_, rfl, rfl, rfl⟩
      · unfold RbInv
        simp only []
        omega
      · unfold queued
        simp only []
        have hlen : (ps.qc + (↑C - ps.pq_w) + (↑buf.length - (↑C - ps.pq_w))).toNat
            = ps.qc.toNat + buf.length := by omega
        rw [hlen, map_range_add]
        congr 1
        · apply map_range_congr
          intro i hi
          unfold memcpy wrapOff
          split_ifs <;> first | rfl | (exfalso; omega)
        · conv_rhs => rw [← map_range_getD buf]
          apply map_range_congr
          intro j hj
          unfold memcpy wrapOff
          split_ifs <;> first | (exfalso; omega) | (congr 1; omega)
      · simp only []
        omega
      · simp only []
        rw [if_pos hbig]
        omega
      · intro j hj
        simp only []
        unfold memcpy wrapOff
        split_ifs <;> first | (exfalso; omega) | (congr 1; omega)
      · intro a ha
        simp only []
        unfold memcpy
        split_ifs with h1 h2
        · exfalso
          refine ha (a + ((C : Int) - ps.pq_w)).toNat (by omega) ?_
          unfold wrapOff
          split_ifs <;> omega
        · exfalso
          refine ha (a - ps.pq_w).toNat (by omega) ?_
          unfold wrapOff
          split_ifs <;> omega
        · rfl
    · injection h with h
      subst h
      refine ⟨?_, ?_, ?_, ?_, ?_, ?_, rfl, rfl, rfl⟩
      · unfold RbInv
        simp only []
        omega
      · unfold queued
        simp only []
        have hlen : (ps.qc + ↑buf.length).toNat = ps.qc.toNat + buf.length := by omega
        rw [hlen, map_range_add]
        congr 1
        · apply map_range_congr
          intro i hi
          unfold memcpy wrapOff
          split_ifs <;> first | rfl | (exfalso; omega)
        · conv_rhs => rw [← map_range_getD buf]
          apply map_range_congr
          intro j hj
          unfold memcpy wrapOff
          split_ifs <;> first | (exfalso; omega) | (congr 1; omega)
      · simp only []
      · simp only []
        rw [if_neg hbig]
      · intro j hj
        simp only []
        unfold memcpy wrapOff
        split_ifs <;> first | (exfalso; omega) | (congr 1; omega)
      · intro a ha
        simp only []
        unfold memcpy
        split_ifs with h1
        · exfalso
          refine ha (a - ps.pq_w).toNat (by omega) ?_
          unfold wrapOff
          split_ifs <;> omega
        · rfl

/-- A copy step goes through on a well-formed queue of a capacity in the range
of `int`. -/
theorem swift_cb_copy_fits (C : Nat) (ps : stuff) (buf : List Nat)
    (hinv : RbInv C ps) (hcap : (C : Int) ≤ 2147483647) :
    ∃ ps1, swift_cb_copy C ps buf = Except.ok ps1 := by
  obtain ⟨hr0, hrC, hw0, hwC, hq0, hqC, hcong, _⟩ := hinv
  unfold swift_cb_copy
  simp only []
  rw [int_of_ok _ (by omega) (by omega)]
  simp only []
  split_ifs
  · exact ⟨_, rfl⟩
  · exact ⟨_, rfl⟩

/-- A copy step on the queue as `swift_init_stuff` left it, or on any queue
with the write cursor at the start of the block, ends in a `Fault` when the
capacity is 2^31 or more. -/
theorem swift_cb_copy_fault (C : Nat) (ps : stuff) (buf : List Nat)
    (hw : ps.pq_w = 0) (hcap : 2147483648 ≤ (C : Int)) :
    swift_cb_copy C ps buf = Except.error Fault.int_overflow := by
  unfold swift_cb_copy int_of
  simp only []
  rw [if_neg (by omega)]

theorem swift_cb_copy_qc (C : Nat) (ps ps1 : stuff) (buf : List Nat)
    (h : swift_cb_copy C ps buf = Except.ok ps1) :
    ps1.qc = ps.qc + buf.length ∧ ps1.immediate_exit = ps.immediate_exit ∧
      ps1.generating_done = ps.generating_done := by
  unfold swift_cb_copy at h
  simp only [] at h
  split at h
  · exact absurd h (by simp)
  · split_ifs at h
    · injection h with h
      subst h
      refine ⟨?_, rfl, rfl⟩
      simp only []
      omega
    · injection h with h
      subst h
      exact ⟨rfl, rfl, rfl⟩

/-- A drain step that goes through on a well-formed queue: the queue stays
well-formed, the bytes returned are the first `min(max_len, qc)` queued bytes
and the rest stays queued. -/
theorem pump_read_ok (C : Nat) (max_len : Int) (ps : stuff) (r : stuff × List Nat)
    (hinv : RbInv C ps) (hmax : 0 ≤ max_len) (h : pump_read C max_len ps = Except.ok r) :
    RbInv C r.1 ∧
      queued C ps = r.2 ++ queued C r.1 ∧
      (r.2.length : Int) = min max_len ps.qc ∧
      r.1.qc = ps.qc - min max_len ps.qc := by
  obtain ⟨hr0, hrC, hw0, hwC, hq0, hqC, hcong, hcap⟩ := hinv
  have hm1 : min max_len ps.qc ≤ ps.qc := min_le_right _ _
  have hm0 : 0 ≤ min max_len ps.qc := le_min hmax hq0
  generalize hL : min max_len ps.qc = len at hm1 hm0
  unfold pump_read at h
  simp only [hL] at h
  split at h
  · exact absurd h (by simp)
  · rename_i availatend hav
    obtain ⟨hv, _, hfits⟩ := int_of_eq_ok _ _ hav
    subst hv
    split_ifs at h with hbig
    · injection h with h
      subst h
      refine ⟨?_, ?_, ?_, ?_⟩
      · unfold RbInv
        simp only []
        omega
      · unfold queued memread
        simp only []
        have hlen : ps.qc.toNat = (↑C - ps.pq_r).toNat + ((len - (↑C - ps.pq_r)).toNat
            + (ps.qc - (↑C - ps.pq_r) - (len - (↑C - ps.pq_r))).toNat) := by omega
        rw [hlen, map_range_add, map_range_add, List.append_assoc]
        congr 1
        · apply map_range_congr
          intro i hi
          unfold wrapOff
          split_ifs <;> first | rfl | (exfalso; omega)
        · congr 1
          · apply map_range_congr
            intro i hi
            unfold wrapOff
            split_ifs <;> first | (exfalso; omega) | (congr 1; omega)
          · apply map_range_congr
            intro i hi
            unfold wrapOff
            split_ifs <;> first | (exfalso; omega) | (congr 1; omega)
      · unfold memread
        simp only [List.length_append, List.length_map, List.length_range]
        omega
      · simp only []
        omega
    · injection h with h
      subst h
      refine ⟨?_, ?_, ?_, ?_⟩
      · unfold RbInv
        simp only []
        omega
      · unfold queued memread
        simp only []
        have hlen : ps.qc.toNat = len.toNat + (ps.qc - len).toNat := by omega
        rw [hlen, map_range_add]
        congr 1
        · apply map_range_congr
          intro i hi
          unfold wrapOff
          split_ifs <;> first | rfl | (exfalso; omega)
        · apply map_range_congr
          intro i hi
          unfold wrapOff
          split_ifs <;> first | (exfalso; omega) | (congr 1; omega)
      · unfold memread
        simp only [List.length_map, List.length_range]
        omega
      · simp only []

/-- A drain step goes through on a well-formed queue of a capacity in the
range of `int`, and so on every well-formed queue with bytes queued. -/
theorem pump_read_fits (C : Nat) (max_len : Int) (ps : stuff) (hinv : RbInv C ps)
    (hcap : (C : Int) ≤ 2147483647 ∨ 0 < ps.qc) :
    ∃ r, pump_read C max_len ps = Except.ok r := by
  obtain ⟨hr0, hrC, hw0, hwC, hq0, hqC, hcong, hc⟩ := hinv
  unfold pump_read
  simp only []
  rw [int_of_ok _ (by omega) (by omega)]
  simp only []
  split_ifs
  · exact ⟨_, rfl⟩
  · exact ⟨_, rfl⟩

theorem pump_read_qc (C : Nat) (max_len : Int) (ps : stuff) (r : stuff × List Nat)
    (h : pump_read C max_len ps = Except.ok r) :
    r.1.qc = ps.qc - min max_len ps.qc ∧ r.1.immediate_exit = ps.immediate_exit ∧
      r.1.generating_done = ps.generating_done := by
  unfold pump_read at h
  simp only [] at h
  split at h
  · exact absurd h (by simp)
  · split_ifs at h
    · injection h with h
      subst h
      refine ⟨?_, rfl, rfl⟩
      simp only []
      omega
    · injection h with h
      subst h
      exact ⟨rfl, rfl, rfl⟩

theorem rbRun_queued (C : Nat) :
    ∀ (ops : List RbOp) (ps : stuff), RbInv C ps → rbAdmissible C ops ps = true →
      RbInv C (rbRun C ops ps).1 ∧
        (rbFaults C ops ps = false →
          queued C ps ++ (rbWritten ops).flatten
            = (rbRun C ops ps).2.flatten ++ queued C (rbRun C ops ps).1) := by
  intro ops
  induction ops with
  | nil =>
      intro ps hinv _
      simp [rbRun, rbWritten, hinv]
  | cons op ops ih =>
      intro ps hinv hadm
      cases op with
      | write buf =>
          simp only [rbAdmissible, Bool.and_eq_true, decide_eq_true_eq] at hadm
          obtain ⟨⟨_, hfit⟩, hrest⟩ := hadm
          cases hc : swift_cb_copy C ps buf with
          | error e =>
              simp only [rbRun, rbFaults, hc]
              exact ⟨hinv, fun hf => absurd hf (by simp)⟩
          | ok ps1 =>
              rw [hc] at hrest
              obtain ⟨hinv1, hq1, _⟩ := swift_cb_copy_ok C ps ps1 buf hinv hfit hc
              obtain ⟨hinv2, hq2⟩ := ih _ hinv1 hrest
              simp only [rbRun, rbFaults, hc, rbWritten, List.flatten_cons]
              refine ⟨hinv2, ?_⟩
              intro hf
              rw [← hq2 hf, hq1, List.append_assoc]
      | read max_len =>
          simp only [rbAdmissible] at hadm
          cases hc : pump_read C max_len ps with
          | error e =>
              simp only [rbRun, rbFaults, hc]
              exact ⟨hinv, fun hf => absurd hf (by simp)⟩
          | ok r =>
              rw [hc] at hadm
              obtain ⟨hinv1, hq1, _, _⟩ :=
                pump_read_ok C max_len ps r hinv (Int.ofNat_nonneg max_len) hc
              obtain ⟨hinv2, hq2⟩ := ih _ hinv1 hadm
              simp only [rbRun, rbFaults, hc, rbWritten, List.flatten_cons]
              refine ⟨hinv2, ?_⟩
              intro hf
              rw [hq1, List.append_assoc, hq2 hf, List.append_assoc]

/-- On a capacity in the range of `int` no step of a sequence of admissible
operations ends in a `Fault`. -/
theorem rbFaults_false (C : Nat) (hcap : (C : Int) ≤ 2147483647) :
    ∀ (ops : List RbOp) (ps : stuff), RbInv C ps → rbAdmissible C ops ps = true →
      rbFaults C ops ps = false := by
  intro ops
  induction ops with
  | nil =>
      intro ps _ _
      rfl
  | cons op ops ih =>
      intro ps hinv hadm
      cases op with
      | write buf =>
          simp only [rbAdmissible, Bool.and_eq_true, decide_eq_true_eq] at hadm
          obtain ⟨⟨_, hfit⟩, hrest⟩ := hadm
          obtain ⟨ps1, hc⟩ := swift_cb_copy_fits C ps buf hinv hcap
          rw [hc] at hrest
          simp only [rbFaults, hc]
          exact ih ps1 (swift_cb_copy_ok C ps ps1 buf hinv hfit hc).1 hrest
      | read max_len =>
          simp only [rbAdmissible] at hadm
          obtain ⟨r, hc⟩ := pump_read_fits C max_len ps hinv (Or.inl hcap)
          rw [hc] at hadm
          simp only [rbFaults, hc]
          exact ih r.1 (pump_read_ok C max_len ps r hinv (Int.ofNat_nonneg max_len) hc).1 hadm

/-- The queue is first in, first out on every capacity in the range of `int`:
for every sequence of copy steps of `swift_cb` (each let through by the tests
of lines 174 and 179) and of drain steps of the pump, from the state that
`swift_init_stuff` builds, no step ends in a `Fault`, the bytes returned by the
reads, in order, followed by the bytes still queued are the written chunks in
order, so the reads return the leading bytes of what was written, and the count
afterwards is bytes written minus bytes read; a further read for `max_len`
bytes goes through and returns `min(max_len, qc)` bytes. -/
theorem ring_buffer_fifo (C : Nat) (heap : Int → Nat) (ops : List RbOp)
    (hcap : (C : Int) ≤ 2147483647)
    (hadm : rbAdmissible C ops (swift_init_stuff heap) = true) :
    rbFaults C ops (swift_init_stuff heap) = false ∧
      (rbRun C ops (swift_init_stuff heap)).2.flatten
        ++ queued C (rbRun C ops (swift_init_stuff heap)).1 = (rbWritten ops).flatten ∧
      (rbRun C ops (swift_init_stuff heap)).2.flatten
        = (rbWritten ops).flatten.take (rbRun C ops (swift_init_stuff heap)).2.flatten.length ∧
      (rbRun C ops (swift_init_stuff heap)).1.qc
        = ((rbWritten ops).flatten.length : Int)
          - ((rbRun C ops (swift_init_stuff heap)).2.flatten.length : Int) ∧
      (∀ max_len : Nat, ∃ r,
        pump_read C max_len (rbRun C ops (swift_init_stuff heap)).1 = Except.ok r ∧
        (r.2.length : Int) = min (max_len : Int) (rbRun C ops (swift_init_stuff heap)).1.qc) := by
  have hnf := rbFaults_false C hcap ops _ (rbInv_init C heap) hadm
  obtain ⟨hinv, hq⟩ := rbRun_queued C ops _ (rbInv_init C heap) hadm
  have hq := hq hnf
  have h0 : queued C (swift_init_stuff heap) = [] := by
    simp [queued, swift_init_stuff]
  rw [h0, List.nil_append] at hq
  refine ⟨hnf, hq.symm, ?_, ?_, ?_⟩
  · rw [hq, List.take_left]
  · have hl := congrArg List.length hq
    rw [List.length_append, queued_length] at hl
    have hq0 : 0 ≤ (rbRun C ops (swift_init_stuff heap)).1.qc := hinv.2.2.2.2.1
    omega
  · intro max_len
    obtain ⟨r, hr⟩ := pump_read_fits C max_len _ hinv (Or.inl hcap)
    exact ⟨r, hr, (pump_read_ok C max_len _ r hinv (Int.ofNat_nonneg max_len) hr).2.2.1⟩

/-- The example of a split write and a split read: capacity 10, write 6 bytes,
read 4, write 6 more over the end of the block, read all: the second read
returns the last 2 bytes of the first chunk and then the 6 bytes of the
second. -/
theorem ring_buffer_fifo_wrapExample :
    rbAdmissible 10 wrapExample (swift_init_stuff (fun _ => 0)) = true ∧
      (rbRun 10 wrapExample (swift_init_stuff (fun _ => 0))).2
        = [[1, 2, 3, 4], [5, 6, 7, 8, 9, 10, 11, 12]] ∧
      (rbRun 10 wrapExample (swift_init_stuff (fun _ => 0))).1.qc = 0 ∧
      (rbRun 10 wrapExample (swift_init_stuff (fun _ => 0))).2.flatten
        ++ queued 10 (rbRun 10 wrapExample (swift_init_stuff (fun _ => 0))).1
        = (rbWritten wrapExample).flatten :=
  ⟨by decide, by decide, by decide,
    (ring_buffer_fifo 10 (fun _ => 0) wrapExample (by decide) (by decide)).2.1⟩

/-! ## Lemmas on the callback and on the loop body -/

theorem swift_cb_copy_error (C : Nat) (ps : stuff) (buf : List Nat) (e : Fault)
    (h : swift_cb_copy C ps buf = Except.error e) : e = Fault.int_overflow := by
  unfold swift_cb_copy at h
  simp only [] at h
  split at h
  · rename_i e1 he1
    unfold int_of at he1
    split_ifs at he1
    injection he1 with he1
    injection h with h
    rw [← h, ← he1]
  · split_ifs at h

/-- What one hold of the lock by the callback can be: asleep, returned with
the object untouched, returned with `generating_done` set, returned after the
copy step went through for a chunk that fits, or crashed in the copy step. -/
theorem swift_cb_step_cases (api : swift_h) (C : Nat) (ps : stuff) (ev : swift_event) :
    (∃ t, swift_cb_step api C ps ev = cb_result.sleeping t) ∨
      (∃ rv, swift_cb_step api C ps ev = cb_result.returned ps rv) ∨
      swift_cb_step api C ps ev
        = cb_result.returned { ps with generating_done := 1 } api.SWIFT_SUCCESS ∨
      (∃ rv buf ps1, ev = swift_event.SWIFT_EVENT_AUDIO rv buf ∧ 0 < buf.length ∧
        (buf.length : Int) + ps.qc ≤ C ∧ ps.immediate_exit = 0 ∧
        swift_cb_copy C ps buf = Except.ok ps1 ∧
        swift_cb_step api C ps ev = cb_result.returned ps1 rv) ∨
      (swift_cb_step api C ps ev = cb_result.crashed ∧
        ∃ rv buf, ev = swift_event.SWIFT_EVENT_AUDIO rv buf ∧ ps.immediate_exit = 0 ∧
          swift_cb_copy C ps buf = Except.error Fault.int_overflow) := by
  cases ev with
  | SWIFT_EVENT_AUDIO rv buf =>
      unfold swift_cb_step
      simp only []
      split_ifs with h1 h2 h3
      · exact Or.inl ⟨_, rfl⟩
      · exact Or.inr (Or.inl ⟨_, rfl⟩)
      · have h4 : ps.immediate_exit = 0 := not_not.mp h3
        have hfit : (buf.length : Int) + ps.qc ≤ C := by
          by_contra hc
          exact h2 ⟨by omega, h4⟩
        cases hc : swift_cb_copy C ps buf with
        | ok ps1 =>
            right; right; right; left
            exact ⟨rv, buf, ps1, rfl, by have := h1.2; omega, hfit, h4, hc, rfl⟩
        | error e =>
            right; right; right; right
            have he := swift_cb_copy_error C ps buf e hc
            subst he
            exact ⟨rfl, rv, buf, rfl, h4, hc⟩
      · exact Or.inr (Or.inl ⟨_, rfl⟩)
  | SWIFT_EVENT_END => exact Or.inr (Or.inr (Or.inl rfl))
  | SWIFT_EVENT_ERROR rv code =>
      unfold swift_cb_step
      simp only []
      split_ifs
      · exact Or.inr (Or.inr (Or.inl rfl))
      · exact Or.inr (Or.inl ⟨_, rfl⟩)
  | SWIFT_EVENT_OTHER => exact Or.inr (Or.inl ⟨_, rfl⟩)

theorem cb_after_qc (api : swift_h) (C : Nat) (ps : stuff) (ev : swift_event) :
    (cb_after ps (swift_cb_step api C ps ev)).qc = ps.qc ∨
      ∃ rv buf, ev = swift_event.SWIFT_EVENT_AUDIO rv buf ∧ 0 < buf.length ∧
        (buf.length : Int) + ps.qc ≤ C ∧
        (cb_after ps (swift_cb_step api C ps ev)).qc = ps.qc + buf.length := by
  rcases swift_cb_step_cases api C ps ev with
    ⟨t, h⟩ | ⟨rv, h⟩ | h | ⟨rv, buf, ps1, hev, hlen, hfit, _, hc, h⟩ | ⟨h, _⟩
  · left; rw [h]; rfl
  · left; rw [h]; rfl
  · left; rw [h]; rfl
  · right
    refine ⟨rv, buf, hev, hlen, hfit, ?_⟩
    rw [h]
    exact (swift_cb_copy_qc C ps ps1 buf hc).1
  · left; rw [h]; rfl

theorem cb_after_rbInv (api : swift_h) (C : Nat) (ps : stuff) (ev : swift_event)
    (hinv : RbInv C ps) : RbInv C (cb_after ps (swift_cb_step api C ps ev)) := by
  rcases swift_cb_step_cases api C ps ev with
    ⟨t, h⟩ | ⟨rv, h⟩ | h | ⟨rv, buf, ps1, hev, hlen, hfit, _, hc, h⟩ | ⟨h, _⟩
  · rw [h]; exact hinv
  · rw [h]; exact hinv
  · rw [h]; exact hinv
  · rw [h]
    exact (swift_cb_copy_ok C ps ps1 buf hinv hfit hc).1
  · rw [h]; exact hinv

theorem cb_after_flags (api : swift_h) (C : Nat) (ps : stuff) (ev : swift_event) :
    (cb_after ps (swift_cb_step api C ps ev)).immediate_exit = ps.immediate_exit := by
  rcases swift_cb_step_cases api C ps ev with
    ⟨t, h⟩ | ⟨rv, h⟩ | h | ⟨rv, buf, ps1, hev, hlen, hfit, _, hc, h⟩ | ⟨h, _⟩
  · rw [h]; rfl
  · rw [h]; rfl
  · rw [h]; rfl
  · rw [h]
    exact (swift_cb_copy_qc C ps ps1 buf hc).2.1
  · rw [h]; rfl

theorem swift_cb_steps_flags (api : swift_h) (C : Nat) :
    ∀ (evs : List swift_event) (ps ps1 : stuff),
      swift_cb_steps api C evs ps = Except.ok ps1 → ps1.immediate_exit = ps.immediate_exit := by
  intro evs
  induction evs with
  | nil =>
      intro ps ps1 h
      rw [swift_cb_steps] at h
      injection h with h
      rw [h]
  | cons ev later ih =>
      intro ps ps1 h
      rw [swift_cb_steps] at h
      split at h
      · exact absurd h (by simp)
      · rw [ih _ ps1 h, cb_after_flags]

theorem swift_cb_steps_rbInv (api : swift_h) (C : Nat) :
    ∀ (evs : List swift_event) (ps ps1 : stuff), RbInv C ps →
      swift_cb_steps api C evs ps = Except.ok ps1 → RbInv C ps1 ∧ ps.qc ≤ ps1.qc := by
  intro evs
  induction evs with
  | nil =>
      intro ps ps1 hinv h
      rw [swift_cb_steps] at h
      injection h with h
      rw [← h]
      exact ⟨hinv, le_refl _⟩
  | cons ev later ih =>
      intro ps ps1 hinv h
      rw [swift_cb_steps] at h
      split at h
      · exact absurd h (by simp)
      · obtain ⟨h1, h2⟩ := ih _ ps1 (cb_after_rbInv api C ps ev hinv) h
        refine ⟨h1, le_trans ?_ h2⟩
        rcases cb_after_qc api C ps ev with hq | ⟨_, _, _, _, _, hq⟩
        · rw [hq]
        · rw [hq]
          omega

theorem swift_cb_after_waiting (api : swift_h) (C : Nat) (rv : Int) (buf : List Nat)
    (hchunk : api.SWIFT_FAILED rv = false ∧ 0 < buf.length) (rest : List stuff) :
    ∀ waited : List stuff,
      (∀ p ∈ waited, (buf.length : Int) + p.qc > C ∧ p.immediate_exit = 0) →
      swift_cb api C (swift_event.SWIFT_EVENT_AUDIO rv buf) (waited ++ rest)
        = swift_cb api C (swift_event.SWIFT_EVENT_AUDIO rv buf) rest := by
  intro waited
  induction waited with
  | nil => intro _; rfl
  | cons p waited ih =>
      intro hw
      have hp := hw p (List.mem_cons_self _ _)
      have hlen : (buf.length : Int) > 0 := by
        have := hchunk.2
        omega
      have hstep : swift_cb_step api C p (swift_event.SWIFT_EVENT_AUDIO rv buf)
          = cb_result.sleeping
              (((buf.length : Int) - ((C : Int) - p.qc)) * 125 + 125 * framesize) := by
        unfold swift_cb_step
        simp only []
        rw [if_pos ⟨hchunk.1, hlen⟩, if_pos hp]
      rw [List.cons_append, swift_cb, hstep]
      exact ih (fun r hr => hw r (List.mem_cons_of_mem _ hr))

theorem swift_cb_copy_done (C : Nat) (p : stuff) (g : Int) (buf : List Nat) :
    swift_cb_copy C { p with generating_done := g } buf
      = (match swift_cb_copy C p buf with
        | Except.ok p1 => Except.ok { p1 with generating_done := g }
        | Except.error e => Except.error e) := by
  unfold swift_cb_copy
  simp only []
  split
  · rfl
  · split_ifs <;> rfl

theorem swift_cb_step_done (api : swift_h) (C : Nat) (p : stuff) (g : Int) (rv : Int)
    (buf : List Nat) :
    swift_cb_step api C { p with generating_done := g } (swift_event.SWIFT_EVENT_AUDIO rv buf)
      = (match swift_cb_step api C p (swift_event.SWIFT_EVENT_AUDIO rv buf) with
        | cb_result.sleeping t => cb_result.sleeping t
        | cb_result.returned p1 r => cb_result.returned { p1 with generating_done := g } r
        | cb_result.crashed => cb_result.crashed) := by
  unfold swift_cb_step
  simp only []
  split_ifs
  · rfl
  · rfl
  · rw [swift_cb_copy_done]
    cases swift_cb_copy C p buf <;> rfl
  · rfl

theorem app_exec_stop_ps (s : session) : (app_exec_stop s).ps = s.ps := by
  unfold app_exec_stop
  split_ifs <;> rfl

theorem app_exec_stop_negative_qc (s : session) :
    (app_exec_stop s).negative_qc = s.negative_qc := by
  unfold app_exec_stop
  split_ifs <;> rfl

theorem app_exec_stop_stops (s : session) :
    (app_exec_stop s).stops
      = s.stops + (if s.ps.immediate_exit ≠ 0 ∧ s.ps.generating_done = 0 then 1 else 0) := by
  unfold app_exec_stop
  split_ifs <;> rfl

theorem app_exec_stop_pacing (s : session) :
    (app_exec_stop s).frames = s.frames ∧ (app_exec_stop s).next = s.next := by
  unfold app_exec_stop
  split_ifs <;> exact ⟨rfl, rfl⟩

/-- A drain that goes through is the drain step of the queue, with its frame
written to the channel and the deadline moved. -/
theorem app_exec_drain_ok (cfg : settings) (s s1 : session)
    (h : app_exec_drain cfg s = Except.ok s1) :
    ∃ r, pump_read cfg.cfg_buffer_size framesize s.ps = Except.ok r ∧
      s1 = { s with
        ps := r.1
        frames := s.frames ++ [r.2]
        negative_qc := if r.1.qc < 0 then s.negative_qc + 1 else s.negative_qc
        next := s.next + cfg.ast_samp2tv (min framesize s.ps.qc) cfg.samplerate } := by
  unfold app_exec_drain at h
  simp only [] at h
  split at h
  · rename_i r hr
    injection h with h
    exact ⟨r, hr, h.symm⟩
  · exact absurd h (by simp)

theorem app_exec_deadline_qc (cfg : settings) (s s1 : session)
    (h : app_exec_deadline cfg s = Except.ok s1) :
    s1.ps.qc = if s.ps.qc > 0 then s.ps.qc - min framesize s.ps.qc else s.ps.qc := by
  unfold app_exec_deadline swift_bytes_available at h
  split_ifs at h with hpos
  · obtain ⟨r, hr, hs1⟩ := app_exec_drain_ok cfg s s1 h
    rw [hs1, if_pos hpos]
    exact (pump_read_qc _ _ _ r hr).1
  · injection h with h
    rw [← h, if_neg hpos]

theorem app_exec_deadline_rbInv (cfg : settings) (s s1 : session)
    (hinv : RbInv cfg.cfg_buffer_size s.ps)
    (h : app_exec_deadline cfg s = Except.ok s1) :
    RbInv cfg.cfg_buffer_size s1.ps := by
  unfold app_exec_deadline at h
  split_ifs at h with hpos
  · obtain ⟨r, hr, hs1⟩ := app_exec_drain_ok cfg s s1 h
    rw [hs1]
    exact (pump_read_ok cfg.cfg_buffer_size framesize s.ps r hinv (by decide) hr).1
  · injection h with h
    rw [← h]
    exact hinv

theorem app_exec_drain_fields (cfg : settings) (s s1 : session)
    (h : app_exec_drain cfg s = Except.ok s1) :
    s1.stops = s.stops ∧ s1.ps.immediate_exit = s.ps.immediate_exit ∧
      s1.ps.generating_done = s.ps.generating_done := by
  obtain ⟨r, hr, hs1⟩ := app_exec_drain_ok cfg s s1 h
  rw [hs1]
  exact ⟨rfl, (pump_read_qc _ _ _ r hr).2.1, (pump_read_qc _ _ _ r hr).2.2⟩

theorem app_exec_deadline_fields (cfg : settings) (s s1 : session)
    (h : app_exec_deadline cfg s = Except.ok s1) :
    s1.stops = s.stops ∧ s1.ps.immediate_exit = s.ps.immediate_exit ∧
      s1.ps.generating_done = s.ps.generating_done := by
  unfold app_exec_deadline at h
  split_ifs at h with hpos
  · exact app_exec_drain_fields cfg s s1 h
  · injection h with h
    rw [← h]
    exact ⟨rfl, rfl, rfl⟩

/-- At the deadline the body goes through on every well-formed queue: with
bytes queued a copy step has been through, so that `availatend` fits its
`int`, and with nothing queued the queue is not read. -/
theorem app_exec_deadline_fits (cfg : settings) (s : session)
    (hinv : RbInv cfg.cfg_buffer_size s.ps) :
    ∃ s1, app_exec_deadline cfg s = Except.ok s1 := by
  unfold app_exec_deadline swift_bytes_available
  split_ifs with hpos
  · obtain ⟨r, hr⟩ := pump_read_fits cfg.cfg_buffer_size framesize s.ps hinv (Or.inr hpos)
    unfold app_exec_drain
    simp only []
    rw [hr]
    exact ⟨_, rfl⟩
  · exact ⟨_, rfl⟩

theorem app_exec_dtmf_ps (cfg : settings) (inp : pump_input) (f : ast_frame)
    (s s1 : session) (h : app_exec_dtmf cfg inp f s = Except.ok s1) :
    s1.ps = { s.ps with immediate_exit := 1 } ∧ s1.negative_qc = s.negative_qc ∧
      s1.frames = s.frames := by
  unfold app_exec_dtmf at h
  simp only [] at h
  split at h
  · exact absurd h (by simp)
  · rename_i s2 hs2
    split at h
    · rename_i results hres
      injection h with h
      subst h
      split at hs2
      · split at hs2
        · injection hs2 with hs2
          subst hs2
          exact ⟨rfl, rfl, rfl⟩
        · exact absurd hs2 (by simp)
      · injection hs2 with hs2
        subst hs2
        exact ⟨rfl, rfl, rfl⟩
    · exact absurd h (by simp)

theorem app_exec_dtmf_fields (cfg : settings) (inp : pump_input) (f : ast_frame)
    (s s1 : session) (h : app_exec_dtmf cfg inp f s = Except.ok s1) :
    s1.stops = s.stops ∧ s1.next = s.next := by
  unfold app_exec_dtmf at h
  simp only [] at h
  split at h
  · exact absurd h (by simp)
  · rename_i s2 hs2
    split at h
    · injection h with h
      subst h
      split at hs2
      · split at hs2
        · injection hs2 with hs2
          subst hs2
          exact ⟨rfl, rfl⟩
        · exact absurd hs2 (by simp)
      · injection hs2 with hs2
        subst hs2
        exact ⟨rfl, rfl⟩
    · exact absurd h (by simp)

theorem app_exec_wait_ps (cfg : settings) (inp : pump_input) (s s1 : session)
    (h : app_exec_wait cfg inp s = Except.ok s1) :
    (s1.ps = s.ps ∨ s1.ps = { s.ps with immediate_exit := 1 }) ∧
      s1.negative_qc = s.negative_qc ∧ s1.frames = s.frames := by
  unfold app_exec_wait at h
  simp only [] at h
  split_ifs at h with h1 h2
  · injection h with h
    subst h
    exact ⟨Or.inr rfl, rfl, rfl⟩
  · split at h
    · injection h with h
      subst h
      exact ⟨Or.inr rfl, rfl, rfl⟩
    · split_ifs at h with h3
      · obtain ⟨hp, hn, hf⟩ := app_exec_dtmf_ps cfg inp _ s s1 h
        exact ⟨Or.inr hp, hn, hf⟩
      · injection h with h
        subst h
        exact ⟨Or.inl rfl, rfl, rfl⟩
  · injection h with h
    subst h
    exact ⟨Or.inl rfl, rfl, rfl⟩

theorem app_exec_wait_qc (cfg : settings) (inp : pump_input) (s s1 : session)
    (h : app_exec_wait cfg inp s = Except.ok s1) :
    s1.ps.qc = s.ps.qc ∧ s1.negative_qc = s.negative_qc := by
  obtain ⟨hp, hn, _⟩ := app_exec_wait_ps cfg inp s s1 h
  refine ⟨?_, hn⟩
  rcases hp with hp | hp <;> rw [hp]

theorem app_exec_wait_fields (cfg : settings) (inp : pump_input) (s s1 : session)
    (h : app_exec_wait cfg inp s = Except.ok s1) :
    s1.stops = s.stops ∧ s1.next = s.next := by
  unfold app_exec_wait at h
  simp only [] at h
  split_ifs at h with h1 h2
  · injection h with h
    subst h
    exact ⟨rfl, rfl⟩
  · split at h
    · injection h with h
      subst h
      exact ⟨rfl, rfl⟩
    · split_ifs at h with h3
      · exact app_exec_dtmf_fields cfg inp _ s s1 h
      · injection h with h
        subst h
        exact ⟨rfl, rfl⟩
  · injection h with h
    subst h
    exact ⟨rfl, rfl⟩

/-- A pass of the loop body without callback calls `swift_port_stop` once when
it ends with `immediate_exit` set and `generating_done` unset, and not at all
otherwise; `generating_done` is not changed by the pass. -/
theorem app_exec_iteration_stops (cfg : settings) (inp : pump_input) (s s1 : session)
    (h : app_exec_iteration cfg inp s = Except.ok s1) :
    s1.stops
        = s.stops + (if s1.ps.immediate_exit ≠ 0 ∧ s1.ps.generating_done = 0 then 1 else 0) ∧
      s1.ps.generating_done = s.ps.generating_done := by
  unfold app_exec_iteration at h
  split_ifs at h with hms
  · split at h
    · rename_i s2 hs2
      injection h with h
      subst h
      obtain ⟨h1, _, h3⟩ := app_exec_deadline_fields cfg s s2 hs2
      rw [app_exec_stop_stops, app_exec_stop_ps, h1]
      exact ⟨rfl, h3⟩
    · exact absurd h (by simp)
  · split at h
    · rename_i s2 hs2
      injection h with h
      subst h
      obtain ⟨h1, _⟩ := app_exec_wait_fields cfg inp s s2 hs2
      rw [app_exec_stop_stops, app_exec_stop_ps, h1]
      refine ⟨rfl, ?_⟩
      rcases (app_exec_wait_ps cfg inp s s2 hs2).1 with hp | hp <;> rw [hp]
    · exact absurd h (by simp)

/-- What one pass of the loop body does to the queue, the frames and the
deadline, for a well-formed queue: at the deadline with bytes queued it writes
one frame of `min(framesize, qc)` bytes and moves the deadline by
`ast_samp2tv` of that number; at the deadline with nothing queued it writes no
frame, leaves the object alone and moves the deadline by `ast_samp2tv` of
`framesize / 2`; before the deadline it writes no frame and leaves the
deadline. -/
theorem app_exec_iteration_pacing (cfg : settings) (inp : pump_input) (s s1 : session)
    (hinv : RbInv cfg.cfg_buffer_size s.ps)
    (h : app_exec_iteration cfg inp s = Except.ok s1) :
    RbInv cfg.cfg_buffer_size s1.ps ∧
      (inp.ms ≤ 0 → 0 < s.ps.qc →
        ∃ frame, s1.frames = s.frames ++ [frame] ∧
          (frame.length : Int) = min framesize s.ps.qc ∧
          s1.next = s.next + cfg.ast_samp2tv (frame.length : Int) cfg.samplerate) ∧
      (inp.ms ≤ 0 → s.ps.qc ≤ 0 →
        s1.frames = s.frames ∧ s1.ps = s.ps ∧
          s1.next = s.next + cfg.ast_samp2tv (framesize / 2) cfg.samplerate) ∧
      (inp.ms > 0 → s1.frames = s.frames ∧ s1.next = s.next) := by
  unfold app_exec_iteration at h
  split_ifs at h with hms
  · split at h
    · rename_i s2 hs2
      injection h with h
      subst h
      obtain ⟨hf, hn⟩ := app_exec_stop_pacing s2
      rw [app_exec_stop_ps, hf, hn]
      refine ⟨app_exec_deadline_rbInv cfg s s2 hinv hs2, ?_, ?_,
        fun hc => absurd hms (by omega)⟩
      · intro _ hpos
        unfold app_exec_deadline swift_bytes_available at hs2
        rw [if_pos hpos] at hs2
        obtain ⟨r, hr, hs2⟩ := app_exec_drain_ok cfg s s2 hs2
        obtain ⟨_, _, hlen, _⟩ :=
          pump_read_ok cfg.cfg_buffer_size framesize s.ps r hinv (by decide) hr
        refine ⟨r.2, ?_, hlen, ?_⟩
        · rw [hs2]
        · rw [hlen, hs2]
      · intro _ hempty
        unfold app_exec_deadline swift_bytes_available at hs2
        rw [if_neg (by omega)] at hs2
        injection hs2 with hs2
        rw [← hs2]
        exact ⟨rfl, rfl, rfl⟩
    · exact absurd h (by simp)
  · split at h
    · rename_i s2 hs2
      injection h with h
      subst h
      obtain ⟨hf, hn⟩ := app_exec_stop_pacing s2
      obtain ⟨hp, _, hfr⟩ := app_exec_wait_ps cfg inp s s2 hs2
      obtain ⟨_, hnx⟩ := app_exec_wait_fields cfg inp s s2 hs2
      rw [app_exec_stop_ps, hf, hn, hfr, hnx]
      refine ⟨?_, fun hc => absurd hc hms, fun hc => absurd hc hms, fun _ => ⟨rfl, rfl⟩⟩
      rcases hp with hp | hp <;> rw [hp] <;> exact hinv
    · exact absurd h (by simp)

theorem running_exit_unset (ps : stuff) (h : swift_generator_running ps ≠ 0) :
    ps.immediate_exit = 0 := by
  unfold swift_generator_running at h
  by_contra hc
  rw [if_neg (fun h1 => hc h1.1)] at h
  exact h rfl

/-- Every session the callback thread and the loop body can produce has a
well-formed queue. -/
theorem reachable_rbInv (api : swift_h) (cfg : settings) (heap : Int → Nat) (now : Int)
    (s : session) (h : Reachable api cfg heap now s) : RbInv cfg.cfg_buffer_size s.ps := by
  induction h with
  | start => exact rbInv_init _ heap
  | callback s ev _ ih => exact cb_after_rbInv api _ s.ps ev ih
  | pump s s1 inp _ hstep ih => exact (app_exec_iteration_pacing cfg inp s s1 ih hstep).1

/-- The count stays between 0 and the capacity, and the "negative bytes" line
is never logged, through every hold of the lock by the callback and every pass
of the loop body. -/
theorem reachable_qc (api : swift_h) (cfg : settings) (heap : Int → Nat) (now : Int)
    (s : session) (h : Reachable api cfg heap now s) :
    0 ≤ s.ps.qc ∧ s.ps.qc ≤ cfg.cfg_buffer_size ∧ s.negative_qc = 0 := by
  induction h with
  | start =>
      simp [app_exec_start, swift_init_stuff]
  | callback s ev _ ih =>
      obtain ⟨h0, hC, hn⟩ := ih
      refine ⟨?_, ?_, hn⟩
      · rcases cb_after_qc api cfg.cfg_buffer_size s.ps ev with h | ⟨_, buf, _, _, _, h⟩
        · simp only []
          omega
        · simp only []
          omega
      · rcases cb_after_qc api cfg.cfg_buffer_size s.ps ev with h | ⟨_, buf, _, _, hfit, h⟩
        · simp only []
          omega
        · simp only []
          omega
  | pump s s1 inp _ hstep ih =>
      obtain ⟨h0, hC, hn⟩ := ih
      unfold app_exec_iteration at hstep
      split_ifs at hstep with hms
      · split at hstep
        · rename_i s2 hs2
          injection hstep with hstep
          subst hstep
          have hq := app_exec_deadline_qc cfg s s2 hs2
          rw [app_exec_stop_ps, app_exec_stop_negative_qc]
          have hmin1 : min framesize s.ps.qc ≤ s.ps.qc := min_le_right _ _
          have hmin0 : 0 ≤ min framesize s.ps.qc := le_min (by decide) h0
          refine ⟨?_, ?_, ?_⟩
          · rw [hq]
            split_ifs <;> omega
          · rw [hq]
            split_ifs <;> omega
          · unfold app_exec_deadline swift_bytes_available at hs2
            split_ifs at hs2 with hpos
            · obtain ⟨r, hr, hs2⟩ := app_exec_drain_ok cfg s s2 hs2
              rw [hs2]
              simp only []
              rw [(pump_read_qc _ _ _ r hr).1]
              split_ifs with hneg
              · omega
              · exact hn
            · injection hs2 with hs2
              rw [← hs2]
              exact hn
        · exact absurd hstep (by simp)
      · split at hstep
        · rename_i s2 hs2
          injection hstep with hstep
          subst hstep
          obtain ⟨hq, hnq⟩ := app_exec_wait_qc cfg inp s s2 hs2
          rw [app_exec_stop_ps, app_exec_stop_negative_qc, hq, hnq]
          exact ⟨h0, hC, hn⟩
        · exact absurd hstep (by simp)

/-- The example session is one the callback and the loop body produce. -/
theorem exampleSession_reachable : Reachable exampleApi exampleCfg (fun _ => 0) 0 exampleSession :=
  Reachable.pump _ _ deadlineInput
    (Reachable.callback _ (swift_event.SWIFT_EVENT_AUDIO 0 [1, 2, 3]) Reachable.start) rfl

theorem app_exec_loop_left (api : swift_h) (cfg : settings) (s : session)
    (hstop : swift_generator_running s.ps = 0) :
    app_exec_loop api cfg [] s = Except.ok (some s) ∧
      ∀ (inp : pump_input) (later : List session_event),
        app_exec_loop api cfg (session_event.pump inp :: later) s = Except.ok (some s) := by
  constructor
  · unfold app_exec_loop
    rw [if_pos hstop]
  · intro inp later
    unfold app_exec_loop
    rw [if_pos hstop]

theorem app_exec_loop_pump (api : swift_h) (cfg : settings) (inp : pump_input)
    (later : List session_event) (s s1 : session)
    (hrun : swift_generator_running s.ps ≠ 0)
    (hit : app_exec_iteration cfg inp s = Except.ok s1) :
    app_exec_loop api cfg (session_event.pump inp :: later) s
      = app_exec_loop api cfg later s1 := by
  rw [app_exec_loop, if_neg hrun, hit]

/-- A pass during which the callback thread does not get the lock is the pass
`app_exec_iteration`. -/
theorem app_exec_pass_noCallbacks (api : swift_h) (cfg : settings) (inp : pump_input)
    (s : session) :
    app_exec_pass api cfg noCallbacks inp s = app_exec_iteration cfg inp s := by
  unfold app_exec_pass app_exec_body app_exec_iteration app_exec_deadline noCallbacks
  simp only [swift_cb_steps]
  split_ifs with hms hpos
  · cases app_exec_drain cfg s <;> rfl
  · rfl
  · cases app_exec_wait cfg inp s <;> rfl

/-- The body of the loop leaves the record of `swift_port_stop` calls alone,
and it leaves `immediate_exit` as it was when that was set. -/
theorem app_exec_body_fields (api : swift_h) (cfg : settings) (evs : List swift_event)
    (inp : pump_input) (s s1 : session)
    (h : app_exec_body api cfg evs inp s = Except.ok s1) :
    s1.stops = s.stops ∧ (s.ps.immediate_exit ≠ 0 → s1.ps.immediate_exit ≠ 0) := by
  unfold app_exec_body at h
  split_ifs at h with hms hpos
  · split at h
    · rename_i ps1 hps1
      obtain ⟨h1, h2, _⟩ := app_exec_drain_fields cfg _ s1 h
      refine ⟨h1, ?_⟩
      intro he
      rw [h2]
      simp only []
      rw [swift_cb_steps_flags api _ evs s.ps ps1 hps1]
      exact he
    · exact absurd h (by simp)
  · injection h with h
    rw [← h]
    exact ⟨rfl, fun he => he⟩
  · refine ⟨(app_exec_wait_fields cfg inp s s1 h).1, ?_⟩
    intro he
    rcases (app_exec_wait_ps cfg inp s s1 h).1 with hp | hp
    · rw [hp]
      exact he
    · rw [hp]
      exact one_ne_zero

/-- A pass of the loop body, with the callback thread at work in it, calls
`swift_port_stop` once when its stop check finds `immediate_exit` set and
`generating_done` unset, and not at all otherwise. -/
theorem app_exec_pass_stops (api : swift_h) (cfg : settings) (cbs : pass_callbacks)
    (inp : pump_input) (s s1 : session)
    (h : app_exec_pass api cfg cbs inp s = Except.ok s1) :
    s1.stops
      = s.stops + (if s1.ps.immediate_exit ≠ 0 ∧ s1.ps.generating_done = 0 then 1 else 0) := by
  unfold app_exec_pass at h
  split at h
  · exact absurd h (by simp)
  · rename_i ps1 hps1
    split at h
    · exact absurd h (by simp)
    · rename_i s2 hs2
      split at h
      · exact absurd h (by simp)
      · rename_i ps3 hps3
        injection h with h
        subst h
        rw [app_exec_stop_stops, app_exec_stop_ps]
        have h1 := (app_exec_body_fields api cfg _ inp _ s2 hs2).1
        simp only [] at h1 ⊢
        rw [h1]

theorem app_exec_loop_reachable (api : swift_h) (cfg : settings) (heap : Int → Nat)
    (now : Int) :
    ∀ (evs : List session_event) (s s1 : session), LoopReachable api cfg heap now s →
      app_exec_loop api cfg evs s = Except.ok (some s1) →
      LoopReachable api cfg heap now s1 := by
  intro evs
  induction evs with
  | nil =>
      intro s s1 hs h
      unfold app_exec_loop at h
      split_ifs at h
      · simp only [Except.ok.injEq, Option.some.injEq] at h
        rw [← h]
        exact hs
      · simp at h
  | cons e later ih =>
      intro s s1 hs h
      cases e with
      | callback ev =>
          rw [app_exec_loop] at h
          split at h
          · simp at h
          · exact ih _ s1 (LoopReachable.callback s ev hs) h
      | pump inp =>
          rw [app_exec_loop] at h
          split_ifs at h with hrun
          · simp only [Except.ok.injEq, Option.some.injEq] at h
            rw [← h]
            exact hs
          · split at h
            · rename_i s2 hs2
              exact ih s2 s1
                (LoopReachable.pump s s2 noCallbacks inp hs hrun
                  (by rw [app_exec_pass_noCallbacks]; exact hs2)) h
            · simp at h

theorem loopReachable_stops (api : swift_h) (cfg : settings) (heap : Int → Nat) (now : Int)
    (s : session) (h : LoopReachable api cfg heap now s) :
    s.stops ≤ 1 ∧ (s.ps.immediate_exit = 0 → s.stops = 0) := by
  induction h with
  | start => exact ⟨Nat.zero_le 1, fun _ => rfl⟩
  | callback s ev _ ih =>
      refine ⟨ih.1, ?_⟩
      intro he
      simp only [] at he
      rw [cb_after_flags] at he
      exact ih.2 he
  | pump s s1 cbs inp _ hrun hstep ih =>
      have h0 := ih.2 (running_exit_unset s.ps hrun)
      have hst := app_exec_pass_stops api cfg cbs inp s s1 hstep
      rw [h0] at hst
      constructor
      · rw [hst]
        split_ifs <;> omega
      · intro he
        rw [hst, if_neg (fun hc => hc.1 he)]

theorem app_exec_listen_stops (cfg : settings) (chan : Nat → Int) (s s2 : session)
    (h : app_exec_listen cfg chan s = Except.ok s2) : s2.stops = s.stops := by
  unfold app_exec_listen at h
  split_ifs at h
  · split at h
    · split at h
      · injection h with h
        subst h
        rfl
      · simp at h
    · simp at h
  · injection h with h
    subst h
    rfl


/-- A pass that waits and in which `ast_waitfor` reports a hangup, `ast_read`
returns NULL, or a digit is read with `timeout` and `max_digits` positive, ends
with `immediate_exit` set. -/
theorem app_exec_pass_cancel (api : swift_h) (cfg : settings) (cbs : pass_callbacks)
    (inp : pump_input) (s s1 : session)
    (h : app_exec_pass api cfg cbs inp s = Except.ok s1) (hms : inp.ms > 0)
    (hcancel : inp.ast_waitfor < 0 ∨ (inp.ast_waitfor > 0 ∧ inp.ast_read = none) ∨
      (inp.ast_waitfor > 0 ∧ ∃ f, inp.ast_read = some f ∧
        f.frametype = ast_frame_type.AST_FRAME_DTMF ∧ cfg.timeout > 0 ∧ cfg.max_digits > 0)) :
    s1.ps.immediate_exit ≠ 0 := by
  unfold app_exec_pass at h
  split at h
  · exact absurd h (by simp)
  · rename_i ps1 hps1
    split at h
    · exact absurd h (by simp)
    · rename_i s2 hs2
      split at h
      · exact absurd h (by simp)
      · rename_i ps3 hps3
        injection h with h
        subst h
        rw [app_exec_stop_ps]
        simp only []
        rw [swift_cb_steps_flags api _ _ s2.ps ps3 hps3]
        unfold app_exec_body at hs2
        rw [if_neg (by omega)] at hs2
        have hset : s2.ps.immediate_exit = 1 := by
          unfold app_exec_wait at hs2
          simp only [] at hs2
          rcases hcancel with hc | ⟨hc1, hc2⟩ | ⟨hc1, f, hf, hd, ht, hm⟩
          · rw [if_pos hc] at hs2
            injection hs2 with hs2
            rw [← hs2]
          · rw [if_neg (by omega), if_pos (by omega), hc2] at hs2
            injection hs2 with hs2
            rw [← hs2]
          · rw [if_neg (by omega), if_pos (by omega), hf] at hs2
            simp only [] at hs2
            rw [if_pos ⟨hd, ht, hm⟩] at hs2
            rw [(app_exec_dtmf_ps cfg inp f _ s2 hs2).1]
        rw [hset]
        exact one_ne_zero

/-- A pass at the deadline with bytes queued and `immediate_exit` unset, on a
well-formed queue: the drain step goes through, one frame is written, taken
from the queue by the drain step, and nothing else of the record changes. -/
theorem deadline_pass (cfg : settings) (inp : pump_input) (s : session)
    (hinv : RbInv cfg.cfg_buffer_size s.ps)
    (hms : inp.ms ≤ 0) (hexit : s.ps.immediate_exit = 0) (hpos : 0 < s.ps.qc) :
    ∃ s1 r, pump_read cfg.cfg_buffer_size framesize s.ps = Except.ok r ∧
      app_exec_iteration cfg inp s = Except.ok s1 ∧
      s1.ps = r.1 ∧
      s1.frames = s.frames ++ [r.2] ∧
      s1.swift_dtmf = s.swift_dtmf ∧ s1.stops = s.stops ∧ s1.res = s.res ∧
      s1.next = s.next + cfg.ast_samp2tv (min framesize s.ps.qc) cfg.samplerate := by
  obtain ⟨r, hr⟩ := pump_read_fits cfg.cfg_buffer_size framesize s.ps hinv (Or.inr hpos)
  obtain ⟨t, ht, hd⟩ : ∃ t, t =
      { s with
        ps := r.1
        frames := s.frames ++ [r.2]
        negative_qc := if r.1.qc < 0 then s.negative_qc + 1 else s.negative_qc
        next := s.next + cfg.ast_samp2tv (min framesize s.ps.qc) cfg.samplerate } ∧
      app_exec_deadline cfg s = Except.ok t := by
    refine ⟨_, rfl, ?_⟩
    unfold app_exec_deadline swift_bytes_available app_exec_drain
    rw [if_pos hpos]
    simp only []
    rw [hr]
  have hst : app_exec_stop t = t := by
    unfold app_exec_stop
    rw [if_neg]
    intro hc
    apply hc.1
    rw [ht]
    simp only []
    rw [(pump_read_qc _ _ _ r hr).2.1]
    exact hexit
  refine ⟨t, r, hr, ?_, ?_, ?_, ?_, ?_, ?_, ?_⟩
  · unfold app_exec_iteration
    rw [if_pos hms, hd]
    simp only []
    rw [hst]
  all_goals rw [ht]

theorem drain_loop (api : swift_h) (cfg : settings) :
    ∀ (k : Nat) (s : session) (evs : List session_event),
      RbInv cfg.cfg_buffer_size s.ps → s.ps.generating_done ≠ 0 →
      s.ps.immediate_exit = 0 → 0 < s.ps.qc →
      s.ps.qc ≤ 20 * (k : Int) → 20 * (k : Int) - 20 < s.ps.qc →
      (∀ e ∈ evs, ∃ inp, e = session_event.pump inp ∧ inp.ms ≤ 0) → k ≤ evs.length →
      ∃ s1 fs, app_exec_loop api cfg evs s = Except.ok (some s1) ∧
        app_exec_loop api cfg (evs.take k) s = Except.ok (some s1) ∧
        s1.frames = s.frames ++ fs ∧ fs.length = k ∧
        fs.flatten = queued cfg.cfg_buffer_size s.ps ∧
        (∀ i, i + 1 < k → ((fs.getD i []).length : Int) = 20) ∧
        ((fs.getD (k - 1) []).length : Int) = s.ps.qc - (20 * (k : Int) - 20) ∧
        s1.ps.qc = 0 ∧ swift_generator_running s1.ps = 0 ∧
        (∀ j, j < k → app_exec_loop api cfg (evs.take j) s = Except.ok none) := by
  intro k
  induction k with
  | zero =>
      intro s evs _ _ _ hpos hle _ _ _
      exfalso
      simp at hle
      omega
  | succ m ih =>
      intro s evs hinv hdone hexit hpos hle hgt hevs hlen
      cases evs with
      | nil => simp at hlen
      | cons e rest =>
          obtain ⟨inp, he, hms⟩ := hevs e (List.mem_cons_self _ _)
          subst he
          have hrest : ∀ e ∈ rest, ∃ inp, e = session_event.pump inp ∧ inp.ms ≤ 0 :=
            fun e he => hevs e (List.mem_cons_of_mem _ he)
          have hrun : swift_generator_running s.ps ≠ 0 := by
            unfold swift_generator_running
            rw [if_pos ⟨hexit, Or.inr (by omega)⟩]
            decide
          have hnone : app_exec_loop api cfg [] s = Except.ok none := by
            unfold app_exec_loop
            rw [if_neg hrun]
          obtain ⟨s1, r, hr, hit, hps, hfr, _⟩ := deadline_pass cfg inp s hinv hms hexit hpos
          obtain ⟨hinv1, hq, hflen, hqc⟩ :=
            pump_read_ok cfg.cfg_buffer_size framesize s.ps r hinv (by decide) hr
          obtain ⟨_, hfl1, hfl2⟩ := pump_read_qc cfg.cfg_buffer_size framesize s.ps r hr
          rw [← hps] at hinv1 hq hqc hfl1 hfl2
          have hflen : ((r.2.length : Nat) : Int) = min 20 s.ps.qc := hflen
          have hqc : s1.ps.qc = s.ps.qc - min 20 s.ps.qc := hqc
          have hstep : ∀ later, app_exec_loop api cfg (session_event.pump inp :: later) s
              = app_exec_loop api cfg later s1 :=
            fun later => app_exec_loop_pump api cfg inp later s s1 hrun hit
          by_cases hsmall : s.ps.qc ≤ 20
          · have hm : m = 0 := by
              push_cast at hgt
              omega
            subst hm
            have hq0 : s1.ps.qc = 0 := by
              rw [hqc, min_eq_right hsmall]
              omega
            have hstop : swift_generator_running s1.ps = 0 := by
              unfold swift_generator_running
              rw [if_neg]
              rintro ⟨_, hc | hc⟩
              · exact hdone (by rw [← hfl2]; exact hc)
              · exact hc hq0
            obtain ⟨hl1, hl2⟩ := app_exec_loop_left api cfg s1 hstop
            have hqd : queued cfg.cfg_buffer_size s1.ps = [] := by
              unfold queued
              rw [hq0]
              rfl
            refine ⟨s1, [r.2], ?_, ?_, hfr, rfl, ?_, ?_, ?_, hq0, hstop, ?_⟩
            · rw [hstep]
              cases rest with
              | nil => exact hl1
              | cons e2 rest2 =>
                  obtain ⟨inp2, he2, _⟩ := hrest e2 (List.mem_cons_self _ _)
                  subst he2
                  exact hl2 inp2 rest2
            · simp only [List.take_succ_cons, List.take_zero, zero_add]
              rw [hstep]
              exact hl1
            · rw [hq, hqd]
              simp
            · intro i hi
              omega
            · simp only [zero_add, Nat.sub_self, List.getD_cons_zero]
              rw [hflen, min_eq_right hsmall]
              push_cast
              omega
            · intro j hj
              have hj0 : j = 0 := by omega
              subst hj0
              exact hnone
          · have hbig : 20 < s.ps.qc := by omega
            have hmin : min (20 : Int) s.ps.qc = 20 := min_eq_left (by omega)
            rw [hmin] at hflen hqc
            have hlen1 : m ≤ rest.length := by
              simp at hlen
              omega
            obtain ⟨s2, fs, h1, h2, h3, h4, h5, h6, h7, h8, h9, h10⟩ :=
              ih s1 rest hinv1 (by rw [hfl2]; exact hdone) (by rw [hfl1]; exact hexit)
                (by omega) (by push_cast at hle; omega) (by push_cast at hgt; omega)
                hrest hlen1
            have hmpos : 0 < m := by
              by_contra hc
              have : m = 0 := by omega
              subst this
              simp at hle
              omega
            refine ⟨s2, r.2 :: fs, ?_, ?_, ?_, ?_, ?_, ?_, ?_, h8, h9, ?_⟩
            · rw [hstep]
              exact h1
            · rw [List.take_succ_cons, hstep]
              exact h2
            · rw [h3, hfr, List.append_assoc]
              rfl
            · simp [h4]
            · rw [List.flatten_cons, h5, hq]
            · intro i hi
              cases i with
              | zero =>
                  simp only [List.getD_cons_zero]
                  exact hflen
              | succ i =>
                  simp only [List.getD_cons_succ]
                  exact h6 i (by omega)
            · have hm1 : m + 1 - 1 = (m - 1) + 1 := by omega
              rw [hm1, List.getD_cons_succ, h7, hqc]
              push_cast
              omega
            · intro j hj
              cases j with
              | zero => exact hnone
              | succ j =>
                  rw [List.take_succ_cons, hstep]
                  exact h10 j (by omega)

/-! ## Lemmas on pacing -/

theorem ast_samp2tv_8000 (n : Int) : ast_samp2tv n load_module_samplerate = 125 * n := by
  unfold ast_samp2tv load_module_samplerate
  omega

theorem frameBytes_append_one (frames : List (List Nat)) (frame : List Nat) :
    frameBytes (frames ++ [frame]) = frameBytes frames + frame.length := by
  unfold frameBytes
  simp

theorem session_run_paced (api : swift_h) (cfg : settings) (hp : Paced cfg) :
    ∀ (evs : List session_event) (s s2 : session), RbInv cfg.cfg_buffer_size s.ps →
      session_run api cfg evs s = Except.ok s2 →
      s.next ≤ s2.next ∧
        (noUnderrun api cfg evs s = true →
          s2.next = s.next + 125 * (frameBytes s2.frames - frameBytes s.frames)) := by
  obtain ⟨hrate, hsamp⟩ := hp
  intro evs
  induction evs with
  | nil =>
      intro s s2 _ h
      rw [session_run] at h
      injection h with h
      subst h
      exact ⟨le_refl _, fun _ => by omega⟩
  | cons e later ih =>
      intro s s2 hinv h
      cases e with
      | callback ev =>
          rw [session_run] at h
          rw [noUnderrun]
          split at h
          · simp at h
          · obtain ⟨h1, h2⟩ := ih _ s2 (cb_after_rbInv api _ s.ps ev hinv) h
            refine ⟨h1, ?_⟩
            intro hno
            exact h2 hno
      | pump inp =>
          rw [session_run] at h
          split at h
          · rename_i s1 hs1
            obtain ⟨hinv1, hA, hB, hC⟩ := app_exec_iteration_pacing cfg inp s s1 hinv hs1
            obtain ⟨h1, h2⟩ := ih s1 s2 hinv1 h
            have hstep : s.next ≤ s1.next ∧
                ((inp.ms > 0 ∨ s.ps.qc > 0) →
                  s1.next = s.next + 125 * (frameBytes s1.frames - frameBytes s.frames)) := by
              by_cases hms : inp.ms ≤ 0
              · by_cases hpos : 0 < s.ps.qc
                · obtain ⟨frame, hf, hl, hn⟩ := hA hms hpos
                  rw [hsamp, hrate, ast_samp2tv_8000] at hn
                  rw [hf, frameBytes_append_one, hn]
                  have hmin : 0 ≤ min framesize s.ps.qc := le_min (by decide) (by omega)
                  constructor
                  · omega
                  · intro _
                    omega
                · obtain ⟨_, _, hn⟩ := hB hms (by omega)
                  rw [hsamp, hrate, ast_samp2tv_8000] at hn
                  have h10 : framesize / 2 = 10 := by decide
                  rw [h10] at hn
                  constructor
                  · omega
                  · intro hc
                    omega
              · obtain ⟨hf, hn⟩ := hC (by omega)
                rw [hf, hn]
                exact ⟨le_refl _, fun _ => by omega⟩
            refine ⟨le_trans hstep.1 h1, ?_⟩
            intro hno
            rw [noUnderrun, hs1] at hno
            simp only [Bool.and_eq_true, Bool.or_eq_true, decide_eq_true_eq] at hno
            rw [h2 hno.2, hstep.2 hno.1]
            omega
          · simp at h

/-! ## Lemmas on the digit collector -/

theorem sprintf_cnv_cases (c : Int) :
    sprintf_cnv c = [] ∨ ∃ b, b ≠ 0 ∧ sprintf_cnv c = [b] := by
  unfold sprintf_cnv
  split_ifs with h
  · left; rfl
  · right
    exact ⟨(c % 256).toNat, by omega, rfl⟩

theorem sprintf_cnv_mapped (d : Int) (h : d ∈ dtmf_table_codes) :
    sprintf_cnv (dtmf_conv d) = [d.toNat] := by
  simp only [dtmf_table_codes, ast_dtmf_table, List.map_cons, List.map_nil, List.mem_cons,
    List.mem_singleton, List.not_mem_nil, or_false] at h
  rcases h with h | h | h | h | h | h | h | h | h | h | h | h <;> subst h <;> decide

theorem dtmf_conv_unmapped (d : Int) (h : d ∉ dtmf_table_codes) : dtmf_conv d = 0 := by
  simp only [dtmf_table_codes, ast_dtmf_table, List.map_cons, List.map_nil, List.mem_cons,
    List.mem_singleton, List.not_mem_nil, or_false, not_or] at h
  obtain ⟨h1, h2, h3, h4, h5, h6, h7, h8, h9, h10, h11, h12⟩ := h
  simp [dtmf_conv, dtmf_conv_loop, ast_dtmf_table, h1, h2, h3, h4, h5, h6, h7, h8, h9, h10,
    h11, h12]

theorem dtmf_conv_mapped (d : Int) (h : d ∈ dtmf_table_codes) :
    dtmf_conv d = d ∧ dtmf_conv d ≠ 0 := by
  simp only [dtmf_table_codes, ast_dtmf_table, List.map_cons, List.map_nil, List.mem_cons,
    List.mem_singleton, List.not_mem_nil, or_false] at h
  rcases h with h | h | h | h | h | h | h | h | h | h | h | h <;> subst h <;> decide

theorem pressedBefore_succ (chan : Nat → Int) (i n : Nat) :
    pressedBefore chan i (n + 1)
      = if chan i ≠ 0 then chan i :: pressedBefore chan (i + 1) n else [] := by
  unfold pressedBefore
  rw [List.range_succ_eq_map, List.map_cons, List.map_map, List.takeWhile_cons]
  have hfun : ((fun j => chan (i + j)) ∘ Nat.succ) = (fun j => chan (i + 1 + j)) := by
    funext j
    simp only [Function.comp]
    congr 1
    omega
  rw [hfun]
  simp only [Nat.add_zero]
  split_ifs with h1 h2 h2
  · rfl
  · simp at h1
    exact absurd h1 h2
  · simp at h1
    exact absurd h2 (by simp [h1])
  · rfl

theorem listen_for_dtmf_loop_ok (chan : Nat → Int) :
    ∀ (remaining i : Nat) (acc : List Nat),
      acc.length + remaining ≤ 99 → (∀ c ∈ acc, c ≠ 0) →
      ∃ str n, listen_for_dtmf_loop chan remaining i acc = Except.ok (str, n) ∧
        str.length ≤ acc.length + remaining ∧ (∀ c ∈ str, c ≠ 0) ∧ n ≤ i + remaining := by
  intro remaining
  induction remaining with
  | zero =>
      intro i acc _ hnz
      exact ⟨acc, i, rfl, by omega, hnz, by omega⟩
  | succ remaining ih =>
      intro i acc hlen hnz
      unfold listen_for_dtmf_loop
      simp only []
      split_ifs with h0
      · exact ⟨acc, i + 1, rfl, by omega, hnz, by omega⟩
      · rcases sprintf_cnv_cases (dtmf_conv (chan i)) with hc | ⟨b, hb, hc⟩
        · rw [hc]
          have hcat : strcat_dtmf_conversion acc [] = Except.ok (acc ++ []) := by
            unfold strcat_dtmf_conversion
            rw [if_pos (by simp; omega)]
          rw [hcat]
          simp only [List.append_nil]
          obtain ⟨str, n, h1, h2, h3, h4⟩ := ih (i + 1) acc (by omega) hnz
          exact ⟨str, n, h1, by omega, h3, by omega⟩
        · rw [hc]
          have hcat : strcat_dtmf_conversion acc [b] = Except.ok (acc ++ [b]) := by
            unfold strcat_dtmf_conversion
            rw [if_pos (by simp; omega)]
          rw [hcat]
          simp only []
          obtain ⟨str, n, h1, h2, h3, h4⟩ := ih (i + 1) (acc ++ [b])
            (by simp; omega)
            (by
              intro c hcmem
              rcases List.mem_append.mp hcmem with hm | hm
              · exact hnz c hm
              · rw [List.mem_singleton.mp hm]
                exact hb)
          refine ⟨str, n, h1, ?_, h3, by omega⟩
          simp at h2
          omega

/-- For `max_digits` up to 99 the collector returns, with at most `max_digits`
characters, none of them NUL, after at most `max_digits` waits. -/
theorem listen_for_dtmf_ok (chan : Nat → Int) (timeout max_digits : Int)
    (hmax : max_digits ≤ 99) :
    ∃ str n, listen_for_dtmf chan timeout max_digits = Except.ok (str, n) ∧
      str.length ≤ max_digits.toNat ∧ (∀ c ∈ str, c ≠ 0) ∧ n ≤ max_digits.toNat := by
  unfold listen_for_dtmf
  obtain ⟨str, n, h1, h2, h3, h4⟩ :=
    listen_for_dtmf_loop_ok chan max_digits.toNat 0 [] (by simp; omega) (by simp)
  exact ⟨str, n, h1, by simpa using h2, h3, by omega⟩

theorem listen_for_dtmf_loop_unmapped_step (chan : Nat → Int) (remaining i : Nat)
    (acc : List Nat) (hnz : chan i ≠ 0) (hun : chan i ∉ dtmf_table_codes)
    (hacc : acc.length ≤ 99) :
    listen_for_dtmf_loop chan (remaining + 1) i acc
      = listen_for_dtmf_loop chan remaining (i + 1) acc := by
  have hcat : strcat_dtmf_conversion acc [] = Except.ok acc := by
    unfold strcat_dtmf_conversion
    rw [if_pos (by simp; omega), List.append_nil]
  have hc : sprintf_cnv 0 = [] := by decide
  rw [listen_for_dtmf_loop, if_neg hnz, dtmf_conv_unmapped _ hun, hc, hcat]

theorem listen_for_dtmf_loop_unmapped (chan : Nat → Int) :
    ∀ (remaining i : Nat) (acc : List Nat), acc.length ≤ 99 →
      (∀ k, i ≤ k → k < i + remaining → chan k ≠ 0 ∧ chan k ∉ dtmf_table_codes) →
      listen_for_dtmf_loop chan remaining i acc = Except.ok (acc, i + remaining) := by
  intro remaining
  induction remaining with
  | zero =>
      intro i acc _ _
      rfl
  | succ remaining ih =>
      intro i acc hacc hall
      obtain ⟨hnz, hun⟩ := hall i (le_refl _) (by omega)
      rw [listen_for_dtmf_loop_unmapped_step chan remaining i acc hnz hun hacc,
        ih (i + 1) acc hacc (fun k hk1 hk2 => hall k (by omega) (by omega))]
      congr 2
      omega

theorem listen_for_dtmf_loop_collects (chan : Nat → Int)
    (htable : ∀ k, chan k = 0 ∨ chan k ∈ dtmf_table_codes) :
    ∀ (remaining i : Nat) (acc : List Nat), acc.length + remaining ≤ 99 →
      listen_for_dtmf_loop chan remaining i acc
        = Except.ok (acc ++ (pressedBefore chan i remaining).map Int.toNat,
            i + (if (pressedBefore chan i remaining).length < remaining
              then (pressedBefore chan i remaining).length + 1 else remaining)) := by
  intro remaining
  induction remaining with
  | zero =>
      intro i acc _
      simp [listen_for_dtmf_loop, pressedBefore]
  | succ remaining ih =>
      intro i acc hlen
      rw [listen_for_dtmf_loop, pressedBefore_succ]
      by_cases h0 : chan i = 0
      · rw [if_pos h0, if_neg (not_not.mpr h0)]
        simp
      · rw [if_neg h0, if_pos h0]
        have hmem : chan i ∈ dtmf_table_codes := by
          rcases htable i with h | h
          · exact absurd h h0
          · exact h
        have hcat : strcat_dtmf_conversion acc [(chan i).toNat]
            = Except.ok (acc ++ [(chan i).toNat]) := by
          unfold strcat_dtmf_conversion
          rw [if_pos (by simp; omega)]
        rw [sprintf_cnv_mapped _ hmem, hcat]
        simp only []
        rw [ih (i + 1) (acc ++ [(chan i).toNat]) (by simp; omega)]
        simp only [List.map_cons, List.length_cons, List.append_assoc, List.singleton_append]
        congr 2
        split_ifs <;> omega

/-- What the digit collector returns when the 100 bytes of `dtmf_conversion`
are enough, that is for `max_digits` up to 99, and every wait result is a
timeout or a code of the table: the characters of the results before the first
timeout among the first `max_digits` results, in order; the number of waits is
one more than that of these results when a timeout ended the loop, and
`max_digits` otherwise. -/
theorem listen_for_dtmf_collects (chan : Nat → Int) (timeout max_digits : Int)
    (hmax : max_digits ≤ 99) (htable : ∀ k, chan k = 0 ∨ chan k ∈ dtmf_table_codes) :
    listen_for_dtmf chan timeout max_digits
        = Except.ok ((pressedBefore chan 0 max_digits.toNat).map Int.toNat,
            if (pressedBefore chan 0 max_digits.toNat).length < max_digits.toNat
              then (pressedBefore chan 0 max_digits.toNat).length + 1
              else max_digits.toNat) ∧
      (pressedBefore chan 0 max_digits.toNat).length ≤ max_digits.toNat ∧
      (max_digits ≤ 0 → listen_for_dtmf chan timeout max_digits = Except.ok ([], 0)) ∧
      (0 < max_digits → chan 0 = 0 →
        listen_for_dtmf chan timeout max_digits = Except.ok ([], 1)) := by
  have hmain := listen_for_dtmf_loop_collects chan htable max_digits.toNat 0 []
    (by simp; omega)
  simp only [List.nil_append, Nat.zero_add] at hmain
  have hle : (pressedBefore chan 0 max_digits.toNat).length ≤ max_digits.toNat := by
    unfold pressedBefore
    refine le_trans (List.takeWhile_sublist _).length_le ?_
    simp
  refine ⟨hmain, hle, ?_, ?_⟩
  · intro hneg
    have h0 : max_digits.toNat = 0 := by omega
    unfold listen_for_dtmf
    rw [h0]
    rfl
  · intro hpos h0
    obtain ⟨n, hn⟩ : ∃ n, max_digits.toNat = n + 1 := ⟨max_digits.toNat - 1, by omega⟩
    unfold listen_for_dtmf
    rw [hn, listen_for_dtmf_loop, if_pos h0]

theorem sprintf_results_ok (out : List Nat) (hlen : out.length ≤ 19)
    (hnz : ∀ c ∈ out, c ≠ 0) : sprintf_results out = Except.ok out := by
  unfold sprintf_results
  rw [if_pos (by omega)]
  congr 1
  rw [List.takeWhile_eq_self_iff]
  intro c hc
  simpa using hnz c hc

/-- What the digit branch does when `results` has room, that is for
`max_digits` up to 19: a digit pressed during playback sets `immediate_exit`
and `alreadyran`, the loop is left at the next test, the string published is
the digit alone when `max_digits = 1` (no collector call) and the digit
followed by the result of `listen_for_dtmf` for `max_digits - 1` digits
otherwise, and the collection after the loop does not run. -/
theorem digit_press_during_playback (cfg : settings) (inp : pump_input) (s : session)
    (f : ast_frame) (chan : Nat → Int)
    (hms : inp.ms > 0) (hw : inp.ast_waitfor > 0) (hf : inp.ast_read = some f)
    (hd : f.frametype = ast_frame_type.AST_FRAME_DTMF)
    (hchar : 0 < f.subclass ∧ f.subclass < 256)
    (ht : cfg.timeout > 0) (hm : 0 < cfg.max_digits) (hm19 : cfg.max_digits ≤ 19)
    (hrc : s.rc = none) :
    ∃ s1, app_exec_iteration cfg inp s = Except.ok s1 ∧
      s1.ps.immediate_exit = 1 ∧ s1.alreadyran = 1 ∧ s1.frames = s.frames ∧
      swift_generator_running s1.ps = 0 ∧
      app_exec_listen cfg chan s1 = Except.ok s1 ∧
      (cfg.max_digits = 1 →
        s1.swift_dtmf = s.swift_dtmf ++ [[f.subclass.toNat]] ∧
        s1.listen_calls = s.listen_calls) ∧
      (1 < cfg.max_digits →
        ∃ str n, listen_for_dtmf inp.ast_waitfordigit cfg.timeout (cfg.max_digits - 1)
            = Except.ok (str, n) ∧
          s1.swift_dtmf = s.swift_dtmf ++ [f.subclass.toNat :: str] ∧
          s1.listen_calls = s.listen_calls ++ [cfg.max_digits - 1] ∧
          str.length + 1 ≤ cfg.max_digits.toNat) := by
  have hbyte : (f.subclass % 256).toNat = f.subclass.toNat := by omega
  have hbnz : f.subclass.toNat ≠ 0 := by omega
  have hwait : app_exec_wait cfg inp s = app_exec_dtmf cfg inp f s := by
    unfold app_exec_wait
    simp only []
    rw [if_neg (by omega), if_pos (by omega), hf]
    simp only []
    rw [if_pos ⟨hd, ht, hm⟩]
  have hafter : ∀ t : session, t.ps.immediate_exit = 1 → t.alreadyran = 1 →
      (app_exec_stop t).ps.immediate_exit = 1 ∧ (app_exec_stop t).alreadyran = 1 ∧
      (app_exec_stop t).frames = t.frames ∧
      swift_generator_running (app_exec_stop t).ps = 0 ∧
      app_exec_listen cfg chan (app_exec_stop t) = Except.ok (app_exec_stop t) ∧
      (app_exec_stop t).swift_dtmf = t.swift_dtmf ∧
      (app_exec_stop t).listen_calls = t.listen_calls := by
    intro t h1 h2
    have hran : (app_exec_stop t).alreadyran = 1 := by
      unfold app_exec_stop
      split_ifs <;> exact h2
    refine ⟨by rw [app_exec_stop_ps]; exact h1, hran, ?_, ?_, ?_, ?_, ?_⟩
    · unfold app_exec_stop
      split_ifs <;> rfl
    · rw [app_exec_stop_ps]
      unfold swift_generator_running
      rw [if_neg]
      intro hc
      rw [h1] at hc
      exact absurd hc.1 (by decide)
    · unfold app_exec_listen
      rw [if_neg]
      intro hc
      rw [hran] at hc
      exact absurd hc.1 (by decide)
    · unfold app_exec_stop
      split_ifs <;> rfl
    · unfold app_exec_stop
      split_ifs <;> rfl
  by_cases hone : cfg.max_digits > 1
  · obtain ⟨str, n, hl, hlen, hnz, _⟩ :=
      listen_for_dtmf_ok inp.ast_waitfordigit cfg.timeout (cfg.max_digits - 1) (by omega)
    have hsp : sprintf_results (f.subclass.toNat :: str)
        = Except.ok (f.subclass.toNat :: str) := by
      apply sprintf_results_ok
      · simp only [List.length_cons]
        omega
      · intro c hc
        rcases List.mem_cons.mp hc with h | h
        · rw [h]
          exact hbnz
        · exact hnz c h
    have hdt : app_exec_dtmf cfg inp f s = Except.ok
        { s with alreadyran := 1, res := 0, ps := { s.ps with immediate_exit := 1 },
                 rc := some str, listen_calls := s.listen_calls ++ [cfg.max_digits - 1],
                 results := f.subclass.toNat :: str,
                 swift_dtmf := s.swift_dtmf ++ [f.subclass.toNat :: str] } := by
      unfold app_exec_dtmf
      simp only []
      rw [if_pos hone, hl]
      simp only []
      rw [hbyte, hsp]
    obtain ⟨t, htd, t1, t2, t3, t4, t5⟩ : ∃ t, app_exec_dtmf cfg inp f s = Except.ok t ∧
        t.ps.immediate_exit = 1 ∧ t.alreadyran = 1 ∧ t.frames = s.frames ∧
        t.swift_dtmf = s.swift_dtmf ++ [f.subclass.toNat :: str] ∧
        t.listen_calls = s.listen_calls ++ [cfg.max_digits - 1] :=
      ⟨_, hdt, rfl, rfl, rfl, rfl, rfl⟩
    obtain ⟨a1, a2, a3, a4, a5, a6, a7⟩ := hafter t t1 t2
    refine ⟨app_exec_stop t, ?_, a1, a2, by rw [a3, t3], a4, a5, ?_, ?_⟩
    · unfold app_exec_iteration
      rw [if_neg (by omega), hwait, htd]
    · intro h1
      omega
    · intro _
      exact ⟨str, n, hl, by rw [a6, t4], by rw [a7, t5], by omega⟩
  · have hdt : app_exec_dtmf cfg inp f s = Except.ok
        { s with alreadyran := 1, res := 0, ps := { s.ps with immediate_exit := 1 },
                 results := [f.subclass.toNat],
                 swift_dtmf := s.swift_dtmf ++ [[f.subclass.toNat]] } := by
      have hsp : sprintf_results [f.subclass.toNat] = Except.ok [f.subclass.toNat] := by
        apply sprintf_results_ok
        · simp
        · intro c hc
          rw [List.mem_singleton.mp hc]
          exact hbnz
      unfold app_exec_dtmf
      simp only []
      rw [if_neg hone]
      simp only [hrc]
      rw [hbyte, hsp]
    obtain ⟨t, htd, t1, t2, t3, t4, t5⟩ : ∃ t, app_exec_dtmf cfg inp f s = Except.ok t ∧
        t.ps.immediate_exit = 1 ∧ t.alreadyran = 1 ∧ t.frames = s.frames ∧
        t.swift_dtmf = s.swift_dtmf ++ [[f.subclass.toNat]] ∧
        t.listen_calls = s.listen_calls :=
      ⟨_, hdt, rfl, rfl, rfl, rfl, rfl⟩
    obtain ⟨a1, a2, a3, a4, a5, a6, a7⟩ := hafter t t1 t2
    refine ⟨app_exec_stop t, ?_, a1, a2, by rw [a3, t3], a4, a5, ?_, ?_⟩
    · unfold app_exec_iteration
      rw [if_neg (by omega), hwait, htd]
    · intro _
      exact ⟨by rw [a6, t4], by rw [a7, t5]⟩
    · intro h1
      exact absurd h1 hone

/-! ## The claims -/

/-- C1: the capacity 2147483648, which `load_module` takes from
`buffer_size = -2147483648` through `atoi` (line 690), and one chunk of 3 bytes
written to the queue as `swift_init_stuff` built it, then read.  The write is
let through by the tests of lines 174 and 179, but `cfg_buffer_size` minus the
offset of the write cursor is 2147483648, which the `int spacefree` of line 194
holds as -2147483648: `len > spacefree` succeeds and `memcpy` is called with a
negative length.  The copy step ends in a `Fault`, the call of `swift_cb` has
crashed, and no read returns the chunk; the same holds for every capacity from
2^31 on, and with the capacity 2147483647 the read returns the chunk. -/
theorem C1_copy_faults_at_capacity_2_31 :
    rbAdmissible 2147483648 [RbOp.write [1, 2, 3], RbOp.read 20]
        (swift_init_stuff (fun _ => 0)) = true ∧
      int_wrap (((2147483648 : Nat) : Int) - (swift_init_stuff (fun _ => 0)).pq_w)
        = -2147483648 ∧
      swift_cb_copy 2147483648 (swift_init_stuff (fun _ => 0)) [1, 2, 3]
        = Except.error Fault.int_overflow ∧
      swift_cb_step exampleApi 2147483648 (swift_init_stuff (fun _ => 0))
          (swift_event.SWIFT_EVENT_AUDIO 0 [1, 2, 3]) = cb_result.crashed ∧
      swift_cb exampleApi 2147483648 (swift_event.SWIFT_EVENT_AUDIO 0 [1, 2, 3])
          [swift_init_stuff (fun _ => 0)] = none ∧
      rbFaults 2147483648 [RbOp.write [1, 2, 3], RbOp.read 20]
        (swift_init_stuff (fun _ => 0)) = true ∧
      (rbRun 2147483648 [RbOp.write [1, 2, 3], RbOp.read 20]
        (swift_init_stuff (fun _ => 0))).2.flatten = [] ∧
      (rbWritten [RbOp.write [1, 2, 3], RbOp.read 20]).flatten = [1, 2, 3] ∧
      (∀ (C : Nat) (heap : Int → Nat) (buf : List Nat), 2147483648 ≤ (C : Int) →
        swift_cb_copy C (swift_init_stuff heap) buf = Except.error Fault.int_overflow) ∧
      (rbRun 2147483647 [RbOp.write [1, 2, 3], RbOp.read 20]
        (swift_init_stuff (fun _ => 0))).2 = [[1, 2, 3]] :=
  ⟨by decide, by decide, rfl, rfl, rfl, by decide, by decide, by decide,
    fun C heap buf hC => swift_cb_copy_fault C (swift_init_stuff heap) buf rfl hC,
    by decide⟩

/-- C2: in every session that holds of the lock by `swift_cb` (audio, end and
error events) and passes of the loop body can produce from the one built with
`swift_init_stuff`, the count satisfies `0 <= qc <= cfg_buffer_size` and the
"negative bytes" line was never logged.  From such a session a hold of the lock
by the callback leaves the count as it is or, for an audio chunk with
`len + qc <= cfg_buffer_size`, adds `len` to it; the deadline branch goes
through, removes `min(framesize, qc)` bytes when `qc > 0` and none otherwise,
and does not log the "negative bytes" line either. -/
theorem C2_count_within_capacity (api : swift_h) (cfg : settings) (heap : Int → Nat)
    (now : Int) (s : session) (h : Reachable api cfg heap now s) :
    0 ≤ s.ps.qc ∧ s.ps.qc ≤ cfg.cfg_buffer_size ∧ s.negative_qc = 0 ∧
      (∀ ev : swift_event,
        (cb_after s.ps (swift_cb_step api cfg.cfg_buffer_size s.ps ev)).qc = s.ps.qc ∨
        ∃ rv buf, ev = swift_event.SWIFT_EVENT_AUDIO rv buf ∧ 0 < buf.length ∧
          (buf.length : Int) + s.ps.qc ≤ cfg.cfg_buffer_size ∧
          (cb_after s.ps (swift_cb_step api cfg.cfg_buffer_size s.ps ev)).qc
            = s.ps.qc + buf.length) ∧
      (∃ s1, app_exec_deadline cfg s = Except.ok s1 ∧
        s1.ps.qc = (if s.ps.qc > 0 then s.ps.qc - min framesize s.ps.qc else s.ps.qc) ∧
        s1.negative_qc = 0) := by
  obtain ⟨h0, hC, hn⟩ := reachable_qc api cfg heap now s h
  obtain ⟨s1, hs1⟩ := app_exec_deadline_fits cfg s (reachable_rbInv api cfg heap now s h)
  refine ⟨h0, hC, hn, fun ev => cb_after_qc api _ s.ps ev, s1, hs1,
    app_exec_deadline_qc cfg s s1 hs1, ?_⟩
  have h1 := reachable_qc api cfg heap now _
    (Reachable.pump s (app_exec_stop s1) deadlineInput h (by
      unfold app_exec_iteration
      rw [if_pos (by decide), hs1]))
  rw [app_exec_stop_negative_qc] at h1
  exact h1.2.2

/-- C2, witness: the session after a chunk of 3 bytes was queued and a pass at
the deadline wrote it out. -/
theorem C2_count_within_capacity_witness :
    exampleSession.ps.qc = 0 ∧ exampleSession.frames = [[1, 2, 3]] ∧
      0 ≤ exampleSession.ps.qc ∧ exampleSession.ps.qc ≤ exampleCfg.cfg_buffer_size ∧
      exampleSession.negative_qc = 0 :=
  have h := C2_count_within_capacity exampleApi exampleCfg (fun _ => 0) 0 exampleSession
    exampleSession_reachable
  ⟨by decide, by decide, h.1, h.2.1, h.2.2.1⟩

/-- C3: for every value of the three fields, `swift_generator_running` returns
non-zero (its value is then 1) exactly when `immediate_exit` is not set and
`generating_done` is not set or the count is not 0; it returns 0 whenever
`immediate_exit` is set, and when `generating_done` is set and the count is 0. -/
theorem C3_generator_running (ps : stuff) :
    (swift_generator_running ps ≠ 0 ↔
        ps.immediate_exit = 0 ∧ (ps.generating_done = 0 ∨ ps.qc ≠ 0)) ∧
      (swift_generator_running ps = 1 ∨ swift_generator_running ps = 0) ∧
      (ps.immediate_exit ≠ 0 → swift_generator_running ps = 0) ∧
      (ps.generating_done ≠ 0 → ps.qc = 0 → swift_generator_running ps = 0) := by
  unfold swift_generator_running
  refine ⟨?_, ?_, ?_, ?_⟩
  · split_ifs with h
    · simp [h]
    · simp [h]
  · split_ifs <;> simp
  · intro h
    rw [if_neg]
    intro hc
    exact h hc.1
  · intro h1 h2
    rw [if_neg]
    rintro ⟨_, hc | hc⟩
    · exact h1 hc
    · exact hc h2

/-- C4: for every audio chunk (an audio event for which `swift_event_get_audio`
does not fail and gives `len > 0`) and every state of the object with
`immediate_exit` set, met on entry (`waited = []`) or after any number of waits
for space (`waited` lists the states that made the callback sleep), `swift_cb`
returns `SWIFT_SUCCESS` and leaves the object, with its storage, both cursors,
the count and `generating_done`, as it found it. -/
theorem C4_cancelled_write_is_dropped (api : swift_h) (C : Nat) (rv : Int) (buf : List Nat)
    (waited later : List stuff) (ps : stuff)
    (hchunk : api.SWIFT_FAILED rv = false ∧ 0 < buf.length)
    (hwait : ∀ p ∈ waited, (buf.length : Int) + p.qc > C ∧ p.immediate_exit = 0)
    (hexit : ps.immediate_exit ≠ 0) :
    swift_cb api C (swift_event.SWIFT_EVENT_AUDIO rv buf) (waited ++ ps :: later)
      = some (ps, api.SWIFT_SUCCESS) := by
  rw [swift_cb_after_waiting api C rv buf hchunk (ps :: later) waited hwait]
  have hlen : (buf.length : Int) > 0 := by
    have := hchunk.2
    omega
  have hstep : swift_cb_step api C ps (swift_event.SWIFT_EVENT_AUDIO rv buf)
      = cb_result.returned ps api.SWIFT_SUCCESS := by
    unfold swift_cb_step
    simp only []
    rw [if_pos ⟨hchunk.1, hlen⟩, if_neg (fun hc => hexit hc.2), if_pos hexit]
  rw [swift_cb, hstep]

/-- C4, witness: capacity 4, a chunk of 3 bytes finds the queue full, sleeps,
and finds `immediate_exit` set when it wakes up. -/
theorem C4_cancelled_write_is_dropped_witness :
    swift_cb exampleApi 4 (swift_event.SWIFT_EVENT_AUDIO 0 [7, 8, 9])
        ([fullStuff] ++ { fullStuff with immediate_exit := 1 } :: [])
      = some ({ fullStuff with immediate_exit := 1 }, exampleApi.SWIFT_SUCCESS) :=
  C4_cancelled_write_is_dropped exampleApi 4 0 [7, 8, 9] [fullStuff] []
    { fullStuff with immediate_exit := 1 } (by decide) (by decide) (by decide)

/-- C5: from a session the callback and the loop can produce, with N > 0 bytes
queued, `generating_done` set and `immediate_exit` unset, followed only by
passes at the deadline (no callback, no channel event), as many as
ceil(N / framesize) or more: the loop is left, right after pass number
ceil(N / framesize) and not before, having written exactly that many frames;
every frame but the last has `framesize` bytes, the last has N mod framesize
bytes when that is not 0 and `framesize` otherwise; the frames in order are the
queued bytes in order. -/
theorem C5_drain_after_end_of_stream (api : swift_h) (cfg : settings) (heap : Int → Nat)
    (now : Int) (s : session) (evs : List session_event)
    (hreach : Reachable api cfg heap now s)
    (hN : 0 < s.ps.qc) (hdone : s.ps.generating_done ≠ 0) (hexit : s.ps.immediate_exit = 0)
    (hevs : ∀ e ∈ evs, ∃ inp, e = session_event.pump inp ∧ inp.ms ≤ 0)
    (hlen : (s.ps.qc + framesize - 1) / framesize ≤ evs.length) :
    ∃ s1 fs, app_exec_loop api cfg evs s = Except.ok (some s1) ∧
      app_exec_loop api cfg (evs.take fs.length) s = Except.ok (some s1) ∧
      (∀ j, j < fs.length → app_exec_loop api cfg (evs.take j) s = Except.ok none) ∧
      swift_generator_running s1.ps = 0 ∧
      s1.frames = s.frames ++ fs ∧
      (fs.length : Int) = (s.ps.qc + framesize - 1) / framesize ∧
      fs.flatten = queued cfg.cfg_buffer_size s.ps ∧
      (∀ i, i + 1 < fs.length → ((fs.getD i []).length : Int) = framesize) ∧
      ((fs.getD (fs.length - 1) []).length : Int)
        = (if s.ps.qc % framesize = 0 then framesize else s.ps.qc % framesize) := by
  have hfs : framesize = 20 := rfl
  rw [hfs] at hlen ⊢
  have hinv := reachable_rbInv api cfg heap now s hreach
  obtain ⟨s1, fs, h1, h2, h3, h4, h5, h6, h7, _, h9, h10⟩ :=
    drain_loop api cfg ((s.ps.qc + 20 - 1) / 20).toNat s evs hinv hdone hexit hN
      (by omega) (by omega) hevs (by omega)
  refine ⟨s1, fs, h1, ?_, ?_, h9, h3, ?_, h5, ?_, ?_⟩
  · rw [h4]
    exact h2
  · rw [h4]
    exact h10
  · rw [h4]
    omega
  · rw [h4]
    exact h6
  · rw [h4, h7]
    split_ifs <;> omega

/-- C5, witness: capacity 100, 40 bytes written and then end-of-stream; two
passes at the deadline write two frames of 20 bytes, bytes 0 to 19 and bytes 20
to 39, and the loop is left after the second. -/
theorem C5_drain_after_end_of_stream_witness :
    (∃ s1 fs, app_exec_loop exampleApi exampleCfg
          [session_event.pump deadlineInput, session_event.pump deadlineInput]
          fortyQueuedDone = Except.ok (some s1) ∧
        s1.frames = fortyQueuedDone.frames ++ fs ∧ (fs.length : Int) = 2 ∧
        swift_generator_running s1.ps = 0) ∧
      fortyQueuedDone.ps.qc = 40 ∧
      (match app_exec_loop exampleApi exampleCfg
          [session_event.pump deadlineInput, session_event.pump deadlineInput]
          fortyQueuedDone with
        | Except.ok (some s1) => s1.frames
        | _ => []) = [List.range 20, (List.range 40).drop 20] ∧
      app_exec_loop exampleApi exampleCfg [session_event.pump deadlineInput] fortyQueuedDone
        = Except.ok none :=
  ⟨(C5_drain_after_end_of_stream exampleApi exampleCfg (fun _ => 0) 0 fortyQueuedDone
        [session_event.pump deadlineInput, session_event.pump deadlineInput]
        (Reachable.callback _ swift_event.SWIFT_EVENT_END
          (Reachable.callback _ (swift_event.SWIFT_EVENT_AUDIO 0 (List.range 40))
            Reachable.start))
        (by decide) (by decide) (by decide)
        (by
          intro e he
          simp only [List.mem_cons, List.mem_singleton, List.not_mem_nil, or_false, or_self]
            at he
          exact ⟨deadlineInput, he, by decide⟩)
        (by decide)).elim
      (fun s1 h => h.elim (fun fs h1 =>
        ⟨s1, fs, h1.1, h1.2.2.2.2.1, h1.2.2.2.2.2.1, h1.2.2.2.1⟩)),
    by decide, by decide, rfl⟩

/-- C6: an end-of-stream event sets `generating_done` and leaves everything
else of the object as it was; in a build with `_SWIFT_VER_6` an error event
whose code is `SWIFT_PORT_UNAVAILABLE` gives the same resulting state and
result as an end-of-stream event, from every state, and an error event with
any other code leaves the object as it was. -/
theorem C6_end_and_error_events (api : swift_h) (C : Nat) (ps : stuff) (later : List stuff)
    (hv6 : api.SWIFT_VER_6 = true) :
    swift_cb api C swift_event.SWIFT_EVENT_END (ps :: later)
        = some ({ ps with generating_done := 1 }, api.SWIFT_SUCCESS) ∧
      swift_cb api C
          (swift_event.SWIFT_EVENT_ERROR api.SWIFT_SUCCESS api.SWIFT_PORT_UNAVAILABLE)
          (ps :: later)
        = swift_cb api C swift_event.SWIFT_EVENT_END (ps :: later) ∧
      (∀ rv code : Int, code ≠ api.SWIFT_PORT_UNAVAILABLE →
        swift_cb api C (swift_event.SWIFT_EVENT_ERROR rv code) (ps :: later)
          = some (ps, api.SWIFT_SUCCESS)) := by
  refine ⟨rfl, ?_, ?_⟩
  · simp [swift_cb, swift_cb_step, hv6]
  · intro rv code hcode
    simp [swift_cb, swift_cb_step, hcode]

/-- C6, witness: the three events on a queue holding 4 bytes. -/
theorem C6_end_and_error_events_witness :
    swift_cb exampleApi 4 swift_event.SWIFT_EVENT_END (fullStuff :: [])
        = some ({ fullStuff with generating_done := 1 }, exampleApi.SWIFT_SUCCESS) ∧
      swift_cb exampleApi 4
          (swift_event.SWIFT_EVENT_ERROR exampleApi.SWIFT_SUCCESS
            exampleApi.SWIFT_PORT_UNAVAILABLE)
          (fullStuff :: [])
        = swift_cb exampleApi 4 swift_event.SWIFT_EVENT_END (fullStuff :: []) ∧
      (∀ rv code : Int, code ≠ exampleApi.SWIFT_PORT_UNAVAILABLE →
        swift_cb exampleApi 4 (swift_event.SWIFT_EVENT_ERROR rv code) (fullStuff :: [])
          = some (fullStuff, exampleApi.SWIFT_SUCCESS)) :=
  C6_end_and_error_events exampleApi 4 fullStuff [] rfl

/-- C7, counterexample: capacity 10, `generating_done` set, nothing queued; an
audio event with the chunk 1, 2, 3 is not ignored: the three bytes are stored,
the write cursor moves to 3 and the count becomes 3. -/
theorem C7_counterexample :
    doneStuff.generating_done = 1 ∧
      (doneStuff.qc, doneStuff.pq_w, doneStuff.q 0, doneStuff.q 1, doneStuff.q 2)
        = (0, 0, 0, 0, 0) ∧
      (swift_cb exampleApi 10 (swift_event.SWIFT_EVENT_AUDIO 0 [1, 2, 3]) [doneStuff]).map
          (fun r => (r.1.qc, r.1.pq_w, r.1.q 0, r.1.q 1, r.1.q 2))
        = some (3, 3, 1, 2, 3) := by
  decide

/-- C7, amended: an audio event that arrives after an end-of-stream event is
handled as before it, `swift_cb` does not read `generating_done`.  On a
well-formed queue of a capacity in the range of `int`, with `immediate_exit`
unset, a chunk that fits (`len + qc <= cfg_buffer_size`) is copied into the
block: `swift_cb` returns the result of `swift_event_get_audio`, the bytes of
the chunk are in the block from the old write position on, continuing at the
start of the block after its end, no other byte of the block has changed, the
queued bytes are the old ones followed by the chunk, the count has grown by
`len`, the write cursor has moved by `len` around the end of the block, and the
read cursor and both flags are as they were, `generating_done` still set.  And
on any states met, replacing the value of `generating_done` changes nothing
but that field of the outcome. -/
theorem C7_audio_after_end_is_queued (api : swift_h) (C : Nat) (rv : Int) (buf : List Nat)
    (ps : stuff) (later : List stuff)
    (hinv : RbInv C ps) (hcap : (C : Int) ≤ 2147483647)
    (hdone : ps.generating_done ≠ 0)
    (hchunk : api.SWIFT_FAILED rv = false ∧ 0 < buf.length)
    (hexit : ps.immediate_exit = 0)
    (hfit : (buf.length : Int) + ps.qc ≤ C) :
    (∃ ps1, swift_cb api C (swift_event.SWIFT_EVENT_AUDIO rv buf) (ps :: later)
          = some (ps1, rv) ∧
        swift_cb_copy C ps buf = Except.ok ps1 ∧
        (∀ j : Nat, j < buf.length →
          ps1.q (wrapOff C (ps.pq_w + (j : Int))) = buf.getD j 0) ∧
        (∀ a : Int, (∀ j : Nat, j < buf.length → a ≠ wrapOff C (ps.pq_w + (j : Int))) →
          ps1.q a = ps.q a) ∧
        queued C ps1 = queued C ps ++ buf ∧
        ps1.qc = ps.qc + buf.length ∧ ps1.qc ≠ ps.qc ∧
        ps1.pq_w = (if (buf.length : Int) > (C : Int) - ps.pq_w
          then (buf.length : Int) - ((C : Int) - ps.pq_w) else ps.pq_w + buf.length) ∧
        ps1.pq_r = ps.pq_r ∧
        ps1.generating_done = ps.generating_done ∧ ps1.generating_done ≠ 0 ∧
        ps1.immediate_exit = ps.immediate_exit ∧
        RbInv C ps1) ∧
      (∀ (seen : List stuff) (g : Int),
        swift_cb api C (swift_event.SWIFT_EVENT_AUDIO rv buf)
            (seen.map (fun p => { p with generating_done := g }))
          = (swift_cb api C (swift_event.SWIFT_EVENT_AUDIO rv buf) seen).map
              (fun r => ({ r.1 with generating_done := g }, r.2))) := by
  have hlen : (buf.length : Int) > 0 := by
    have := hchunk.2
    omega
  constructor
  · obtain ⟨ps1, hc⟩ := swift_cb_copy_fits C ps buf hinv hcap
    obtain ⟨h1, h2, h3, h4, h5, h6, h7, h8, h9⟩ := swift_cb_copy_ok C ps ps1 buf hinv hfit hc
    have hstep : swift_cb_step api C ps (swift_event.SWIFT_EVENT_AUDIO rv buf)
        = cb_result.returned ps1 rv := by
      unfold swift_cb_step
      simp only []
      rw [if_pos ⟨hchunk.1, hlen⟩, if_neg (fun hc => by omega), if_neg (not_not.mpr hexit), hc]
    refine ⟨ps1, ?_, hc, h5, h6, h2, h3, ?_, h4, h7, h8, ?_, h9, h1⟩
    · rw [swift_cb, hstep]
    · rw [h3]
      omega
    · rw [h8]
      exact hdone
  · intro seen g
    induction seen with
    | nil => rfl
    | cons p seen ih =>
        rw [List.map_cons, swift_cb, swift_cb, swift_cb_step_done]
        cases swift_cb_step api C p (swift_event.SWIFT_EVENT_AUDIO rv buf) with
        | sleeping t => exact ih
        | returned p1 r => rfl
        | crashed => rfl

/-- C7, amended, witness: capacity 10, `generating_done` set, the bytes 5 and 6
queued at the offsets 4 and 5; the chunk 7, 8, 9, 10, 11, 12 is stored at the
offsets 6 to 9 and 0 to 1, the write cursor goes from 6 to 2 and the count from
2 to 8. -/
theorem C7_audio_after_end_is_queued_witness :
    (wrapDoneStuff.generating_done, wrapDoneStuff.pq_r, wrapDoneStuff.pq_w, wrapDoneStuff.qc)
        = (1, 4, 6, 2) ∧
      (swift_cb exampleApi 10 (swift_event.SWIFT_EVENT_AUDIO 0 [7, 8, 9, 10, 11, 12])
          (wrapDoneStuff :: [])).map
          (fun r => (r.1.qc, r.1.pq_w, r.1.pq_r, r.1.generating_done, r.2))
        = some (8, 2, 4, 1, 0) ∧
      (swift_cb exampleApi 10 (swift_event.SWIFT_EVENT_AUDIO 0 [7, 8, 9, 10, 11, 12])
          (wrapDoneStuff :: [])).map
          (fun r => [r.1.q 4, r.1.q 5, r.1.q 6, r.1.q 7, r.1.q 8, r.1.q 9, r.1.q 0, r.1.q 1])
        = some [5, 6, 7, 8, 9, 10, 11, 12] ∧
      (∃ ps1, swift_cb exampleApi 10 (swift_event.SWIFT_EVENT_AUDIO 0 [7, 8, 9, 10, 11, 12])
            (wrapDoneStuff :: []) = some (ps1, 0) ∧
          queued 10 ps1 = queued 10 wrapDoneStuff ++ [7, 8, 9, 10, 11, 12] ∧
          ps1.qc = wrapDoneStuff.qc + 6) :=
  ⟨by decide, by decide, by decide,
    (C7_audio_after_end_is_queued exampleApi 10 0 [7, 8, 9, 10, 11, 12] wrapDoneStuff []
      (by unfold RbInv; decide) (by decide) (by decide) (by decide) (by decide)
      (by decide)).1.elim
      (fun ps1 h => ⟨ps1, h.1, h.2.2.2.2.1, h.2.2.2.2.2.1⟩)⟩

/-- C8: in a pass of the loop that waits (`ms > 0`), when `ast_waitfor` returns
a negative value, or a positive value and `ast_read` returns NULL, the pass
sets `immediate_exit` and `res = -1`, publishes nothing, writes no frame and
calls no digit collector, and `swift_generator_running` is 0 for every state of
the object with that `immediate_exit`, whatever its count and
`generating_done`; when `ast_waitfor` returns 0 the session is left as it
was. -/
theorem C8_disconnect_in_wait (cfg : settings) (inp : pump_input) (s : session)
    (hms : inp.ms > 0) (hrun : swift_generator_running s.ps ≠ 0) :
    ((inp.ast_waitfor < 0 ∨ (inp.ast_waitfor > 0 ∧ inp.ast_read = none)) →
      ∃ s1, app_exec_iteration cfg inp s = Except.ok s1 ∧
        s1.ps = { s.ps with immediate_exit := 1 } ∧ s1.res = -1 ∧
        s1.swift_dtmf = s.swift_dtmf ∧ s1.frames = s.frames ∧
        s1.listen_calls = s.listen_calls ∧ s1.alreadyran = s.alreadyran ∧
        (∀ ps2 : stuff, ps2.immediate_exit = s1.ps.immediate_exit →
          swift_generator_running ps2 = 0)) ∧
    (inp.ast_waitfor = 0 → app_exec_iteration cfg inp s = Except.ok s) := by
  have hexit : s.ps.immediate_exit = 0 := by
    unfold swift_generator_running at hrun
    by_contra hc
    rw [if_neg (fun h => hc h.1)] at hrun
    exact hrun rfl
  have hwait : ∀ s1, app_exec_wait cfg inp s = Except.ok s1 →
      app_exec_iteration cfg inp s = Except.ok (app_exec_stop s1) := by
    intro s1 h1
    unfold app_exec_iteration
    rw [if_neg (by omega), h1]
  constructor
  · intro hdisc
    have hw : app_exec_wait cfg inp s
        = Except.ok { s with res := -1, ps := { s.ps with immediate_exit := 1 } } := by
      unfold app_exec_wait
      simp only []
      rcases hdisc with h | ⟨h1, h2⟩
      · rw [if_pos h]
      · rw [if_neg (by omega), if_pos (by omega), h2]
    refine ⟨_, hwait _ hw, ?_, ?_, ?_, ?_, ?_, ?_, ?_⟩
    · rw [app_exec_stop_ps]
    · unfold app_exec_stop
      split_ifs <;> rfl
    · unfold app_exec_stop
      split_ifs <;> rfl
    · unfold app_exec_stop
      split_ifs <;> rfl
    · unfold app_exec_stop
      split_ifs <;> rfl
    · unfold app_exec_stop
      split_ifs <;> rfl
    · intro ps2 h2
      rw [app_exec_stop_ps] at h2
      unfold swift_generator_running
      rw [if_neg]
      intro hc
      rw [hc.1] at h2
      simp at h2
  · intro hzero
    have hw : app_exec_wait cfg inp s = Except.ok s := by
      unfold app_exec_wait
      simp only []
      rw [if_neg (by omega), if_neg (by omega)]
    rw [hwait _ hw]
    unfold app_exec_stop
    rw [if_neg (fun h => h.1 hexit)]

/-- C8, witness: in the first pass of a session, a hangup, a NULL frame and a
timeout of `ast_waitfor`. -/
theorem C8_disconnect_in_wait_witness :
    (∃ s1, app_exec_iteration exampleCfg hangupInput (app_exec_start (fun _ => 0) 0)
        = Except.ok s1 ∧ s1.ps.immediate_exit = 1 ∧ s1.res = -1 ∧ s1.swift_dtmf = []) ∧
      (∃ s1, app_exec_iteration exampleCfg nullFrameInput (app_exec_start (fun _ => 0) 0)
        = Except.ok s1 ∧ s1.ps.immediate_exit = 1 ∧ s1.res = -1 ∧ s1.swift_dtmf = []) ∧
      app_exec_iteration exampleCfg timeoutInput (app_exec_start (fun _ => 0) 0)
        = Except.ok (app_exec_start (fun _ => 0) 0) ∧
      swift_generator_running (app_exec_start (fun _ => 0) 0).ps = 1 :=
  have h1 := (C8_disconnect_in_wait exampleCfg hangupInput (app_exec_start (fun _ => 0) 0)
    (by decide) (by decide)).1 (Or.inl (by decide))
  have h2 := (C8_disconnect_in_wait exampleCfg nullFrameInput (app_exec_start (fun _ => 0) 0)
    (by decide) (by decide)).1 (Or.inr ⟨by decide, rfl⟩)
  have h3 := (C8_disconnect_in_wait exampleCfg timeoutInput (app_exec_start (fun _ => 0) 0)
    (by decide) (by decide)).2 rfl
  ⟨h1.elim (fun s1 h => ⟨s1, h.1, by rw [h.2.1], h.2.2.1, by rw [h.2.2.2.1]; rfl⟩),
    h2.elim (fun s1 h => ⟨s1, h.1, by rw [h.2.1], h.2.2.1, by rw [h.2.2.2.1]; rfl⟩),
    h3, by decide⟩

/-- C9, counterexample: timeout 3000, max_digits 4; `ast_waitfor` reports a
hangup in the first pass, before any digit.  The loop is left with `res = -1`
and `alreadyran = 0`, and the code after the loop calls `listen_for_dtmf` for 4
digits and sets `SWIFT_DTMF`: to the empty string when every `ast_waitfordigit`
returns -1, to `12` when the channel still delivers `1`, `2` and a timeout. -/
theorem C9_counterexample :
    (match app_exec_loop exampleApi exampleCfg [session_event.pump hangupInput]
        (app_exec_start (fun _ => 0) 0) with
      | Except.ok (some s1) =>
          (match app_exec_listen exampleCfg (fun _ => -1) s1 with
            | Except.ok s2 => some (s1.res, s1.alreadyran, s2.listen_calls, s2.swift_dtmf)
            | Except.error _ => none)
      | _ => none) = some (-1, 0, [4], [[]]) ∧
    (match app_exec_loop exampleApi exampleCfg [session_event.pump hangupInput]
        (app_exec_start (fun _ => 0) 0) with
      | Except.ok (some s1) =>
          (match app_exec_listen exampleCfg
              (fun k => if k = 0 then 49 else if k = 1 then 50 else 0) s1 with
            | Except.ok s2 => some (s2.listen_calls, s2.swift_dtmf)
            | Except.error _ => none)
      | _ => none) = some ([4], [[49, 50]]) := by
  decide

/-- C9, amended: when a disconnect (a negative `ast_waitfor` result, or a
positive one followed by a NULL frame) ends the loop before any digit was
pressed, the loop is left right after that pass with `res = -1`.  After it the
code publishes nothing and calls no collector when `timeout <= 0` or
`max_digits <= 0`; when both are positive the digit collection after the loop
runs all the same, as it is gated on `alreadyran`, `timeout` and `max_digits`
only: `listen_for_dtmf` is called for `max_digits` digits and its result,
possibly empty, is published (shown for `max_digits <= 19`). -/
theorem C9_fallback_runs_after_disconnect (api : swift_h) (cfg : settings)
    (inp : pump_input) (s : session) (chan : Nat → Int)
    (hms : inp.ms > 0) (hrun : swift_generator_running s.ps ≠ 0)
    (hdisc : inp.ast_waitfor < 0 ∨ (inp.ast_waitfor > 0 ∧ inp.ast_read = none))
    (hnodigit : s.alreadyran = 0) :
    ∃ s1, app_exec_loop api cfg [session_event.pump inp] s = Except.ok (some s1) ∧
      (∀ (inp2 : pump_input) (later : List session_event),
        app_exec_loop api cfg (session_event.pump inp :: session_event.pump inp2 :: later) s
          = Except.ok (some s1)) ∧
      s1.res = -1 ∧ s1.swift_dtmf = s.swift_dtmf ∧ s1.listen_calls = s.listen_calls ∧
      ((cfg.timeout ≤ 0 ∨ cfg.max_digits ≤ 0) → app_exec_listen cfg chan s1 = Except.ok s1) ∧
      (0 < cfg.timeout → 0 < cfg.max_digits → cfg.max_digits ≤ 19 →
        ∃ str n s2, listen_for_dtmf chan cfg.timeout cfg.max_digits = Except.ok (str, n) ∧
          app_exec_listen cfg chan s1 = Except.ok s2 ∧
          s2.listen_calls = s.listen_calls ++ [cfg.max_digits] ∧
          s2.swift_dtmf = s.swift_dtmf ++ [str] ∧ s2.res = -1) := by
  have hw : app_exec_wait cfg inp s
      = Except.ok { s with res := -1, ps := { s.ps with immediate_exit := 1 } } := by
    unfold app_exec_wait
    simp only []
    rcases hdisc with h | ⟨h1, h2⟩
    · rw [if_pos h]
    · rw [if_neg (by omega), if_pos (by omega), h2]
  have hit : app_exec_iteration cfg inp s
      = Except.ok (app_exec_stop { s with res := -1, ps := { s.ps with immediate_exit := 1 } }) := by
    unfold app_exec_iteration
    rw [if_neg (by omega), hw]
  have hstop : ∀ t : session, t.ps.immediate_exit = 1 →
      swift_generator_running (app_exec_stop t).ps = 0 := by
    intro t ht
    rw [app_exec_stop_ps]
    unfold swift_generator_running
    rw [if_neg]
    intro hc
    rw [ht] at hc
    exact absurd hc.1 (by decide)
  have hfields : ∀ t : session,
      (app_exec_stop t).res = t.res ∧ (app_exec_stop t).swift_dtmf = t.swift_dtmf ∧
      (app_exec_stop t).listen_calls = t.listen_calls ∧
      (app_exec_stop t).alreadyran = t.alreadyran := by
    intro t
    unfold app_exec_stop
    split_ifs <;> exact ⟨rfl, rfl, rfl, rfl⟩
  obtain ⟨s1, hs1, hit1⟩ : ∃ s1,
      s1 = app_exec_stop { s with res := -1, ps := { s.ps with immediate_exit := 1 } } ∧
      app_exec_iteration cfg inp s = Except.ok s1 := ⟨_, rfl, hit⟩
  have hres : s1.res = -1 := by rw [hs1]; exact (hfields _).1
  have hpub : s1.swift_dtmf = s.swift_dtmf := by rw [hs1]; exact (hfields _).2.1
  have hcalls : s1.listen_calls = s.listen_calls := by rw [hs1]; exact (hfields _).2.2.1
  have hran : s1.alreadyran = s.alreadyran := by rw [hs1]; exact (hfields _).2.2.2
  have hs1stop : swift_generator_running s1.ps = 0 := by rw [hs1]; exact hstop _ rfl
  obtain ⟨hleft1, hleft2⟩ := app_exec_loop_left api cfg s1 hs1stop
  have hloop1 : app_exec_loop api cfg [session_event.pump inp] s
      = app_exec_loop api cfg [] s1 :=
    app_exec_loop_pump api cfg inp [] s s1 hrun hit1
  have hloop2 : ∀ (inp2 : pump_input) (later : List session_event),
      app_exec_loop api cfg (session_event.pump inp :: session_event.pump inp2 :: later) s
        = app_exec_loop api cfg (session_event.pump inp2 :: later) s1 := by
    intro inp2 later
    exact app_exec_loop_pump api cfg inp _ s s1 hrun hit1
  clear hs1
  refine ⟨s1, by rw [hloop1]; exact hleft1, ?_, hres, hpub, hcalls, ?_, ?_⟩
  · intro inp2 later
    rw [hloop2]
    exact hleft2 inp2 later
  · intro hoff
    unfold app_exec_listen
    rw [if_neg]
    intro hc
    omega
  · intro ht hm hm19
    obtain ⟨str, n, hl, hlen, hnz, _⟩ :=
      listen_for_dtmf_ok chan cfg.timeout cfg.max_digits (by omega)
    have hsp : sprintf_results str = Except.ok str :=
      sprintf_results_ok str (by omega) hnz
    refine ⟨str, n,
      { s1 with rc := some str, listen_calls := s1.listen_calls ++ [cfg.max_digits],
                results := str, swift_dtmf := s1.swift_dtmf ++ [str] },
      hl, ?_, ?_, ?_, ?_⟩
    · unfold app_exec_listen
      rw [if_pos ⟨by rw [hran]; exact hnodigit, ht, hm⟩, hl]
      simp only []
      rw [hsp]
    · simp only []
      rw [hcalls]
    · simp only []
      rw [hpub]
    · simp only []
      exact hres

/-- C9, amended, witness: the hangup of the counterexample. -/
theorem C9_fallback_runs_after_disconnect_witness :
    ∃ s1, app_exec_loop exampleApi exampleCfg [session_event.pump hangupInput]
        (app_exec_start (fun _ => 0) 0) = Except.ok (some s1) ∧
      ∃ str n s2, listen_for_dtmf (fun _ => -1) exampleCfg.timeout exampleCfg.max_digits
          = Except.ok (str, n) ∧
        app_exec_listen exampleCfg (fun _ => -1) s1 = Except.ok s2 ∧
        s2.listen_calls = [4] ∧ s2.swift_dtmf = [str] :=
  (C9_fallback_runs_after_disconnect exampleApi exampleCfg hangupInput
      (app_exec_start (fun _ => 0) 0) (fun _ => -1) (by decide) (by decide)
      (Or.inl (by decide)) rfl).elim
    (fun s1 h => ⟨s1, h.1,
      (h.2.2.2.2.2.2 (by decide) (by decide) (by decide)).elim
        (fun str h1 => h1.elim (fun n h2 => h2.elim (fun s2 h3 =>
          ⟨str, n, s2, h3.1, h3.2.1, h3.2.2.1, h3.2.2.2.1⟩)))⟩)

/-- C10: timeout 3000 and max_digits 20; the caller presses `1` during
playback and then 19 more digits.  `listen_for_dtmf` returns 19 characters and
`sprintf(results, "%c%s", ...)` has 20 characters and the final NUL to put in
the 20 bytes of `results`: the pass ends in a buffer overflow and publishes
nothing defined; with max_digits 19 the same caller gets 19 characters
published, and with max_digits 4 and the digits `1`, `2`, `3` and a timeout the
string `123`. -/
theorem C10_results_overflow :
    app_exec_iteration twentyDigitsCfg digitInput (app_exec_start (fun _ => 0) 0)
        = Except.error Fault.buffer_overflow ∧
      (match app_exec_iteration { exampleCfg with max_digits := 19 } digitInput
          (app_exec_start (fun _ => 0) 0) with
        | Except.ok s1 => some (s1.swift_dtmf.map List.length, s1.listen_calls)
        | Except.error _ => none) = some ([19], [18]) ∧
      (match app_exec_iteration exampleCfg threeDigitsInput
          (app_exec_start (fun _ => 0) 0) with
        | Except.ok s1 =>
            some (s1.swift_dtmf, s1.listen_calls, s1.ps.immediate_exit, s1.alreadyran)
        | Except.error _ => none) = some ([[49, 50, 51]], [3], 1, 1) :=
  ⟨rfl, by decide, by decide⟩

set_option maxRecDepth 20000 in
/-- C11: `max_digits` 100 and a caller who presses `1` at every wait.  After 99
characters the 100 bytes of `dtmf_conversion` are full, and the next `strcat`
writes past the end of the block: `listen_for_dtmf` ends in a buffer overflow
and returns no defined string.  With `max_digits` 99 the same caller gets 99
characters after 99 waits; with `max_digits` 4 and the results `1`, `2`,
timeout the string is `12` after 3 waits, and it is empty after 1 wait when the
first wait times out and after no wait when `max_digits` is 0. -/
theorem C11_dtmf_conversion_overflow :
    listen_for_dtmf (fun _ => 49) 3000 100 = Except.error Fault.buffer_overflow ∧
      (match listen_for_dtmf (fun _ => 49) 3000 99 with
        | Except.ok r => some (r.1.length, r.2)
        | Except.error _ => none) = some (99, 99) ∧
      listen_for_dtmf (fun k => if k = 0 then 49 else if k = 1 then 50 else 0) 3000 4
        = Except.ok ([49, 50], 3) ∧
      listen_for_dtmf (fun _ => 0) 3000 4 = Except.ok ([], 1) ∧
      listen_for_dtmf (fun _ => 49) 3000 0 = Except.ok ([], 0) :=
  ⟨rfl, by decide, rfl, rfl, rfl⟩

/-- C12, counterexample: `swift_engine_open` returns NULL; `app_exec` goes to
the label `exception` and returns 0, and it does the same when the port cannot
be opened, the voice cannot be set, `swift_port_speak_text` fails or the write
format cannot be set. -/
theorem C12_counterexample :
    (app_exec_setup exampleApi { goodSetup with swift_engine_open := false }).map
        (fun e => e.res) = some 0 ∧
      (app_exec_setup exampleApi { goodSetup with swift_port_open := false }).map
        (fun e => e.res) = some 0 ∧
      (app_exec_setup exampleApi { goodSetup with swift_port_set_voice_by_name := false }).map
        (fun e => e.res) = some 0 ∧
      (app_exec_setup exampleApi { goodSetup with swift_port_speak_text := -1 }).map
        (fun e => e.res) = some 0 ∧
      (app_exec_setup exampleApi { goodSetup with ast_set_write_format := -1 }).map
        (fun e => e.res) = some 0 := by
  decide

/-- C12, amended: whenever a step of the setup fails (opening the engine,
opening the port, selecting the voice, starting the synthesis, setting the
write format), `app_exec` goes through the code at the label `exception`, which
closes the port and the engine it has opened and frees the queue, and returns
0, the initial value of `res`: the failure is logged and not reported in the
result, which is the one of a session that ended without a disconnect. -/
theorem C12_setup_failure_returns_zero (api : swift_h) (su : setup_input)
    (hfail : su.swift_engine_open = false ∨ su.swift_port_open = false ∨
      su.swift_port_set_voice_by_name = false ∨
      api.SWIFT_FAILED su.swift_port_speak_text = true ∨ su.ast_set_write_format < 0) :
    ∃ e, app_exec_setup api su = some e ∧ e.res = 0 ∧
      e.queue_freed = true ∧ e.module_user_removed = true ∧
      e.engine_closed = su.swift_engine_open ∧
      e.port_closed = (su.swift_engine_open && su.swift_port_open) ∧
      (∀ s : session, s.res = 0 → (app_exec_end su s).res = e.res) := by
  unfold app_exec_setup
  simp only []
  split_ifs with h1 h2 h3 h4 h5
  · exact ⟨_, rfl, rfl, rfl, rfl, by rw [h1]; rfl, by rw [h1]; rfl, fun s hs => hs⟩
  · have h1t : su.swift_engine_open = true := by simpa using h1
    exact ⟨_, rfl, rfl, rfl, rfl, by rw [h1t]; rfl, by rw [h1t, h2]; rfl, fun s hs => hs⟩
  · have h1t : su.swift_engine_open = true := by simpa using h1
    have h2t : su.swift_port_open = true := by simpa using h2
    exact ⟨_, rfl, rfl, rfl, rfl, by rw [h1t]; rfl, by rw [h1t, h2t]; rfl, fun s hs => hs⟩
  · have h1t : su.swift_engine_open = true := by simpa using h1
    have h2t : su.swift_port_open = true := by simpa using h2
    exact ⟨_, rfl, rfl, rfl, rfl, by rw [h1t]; rfl, by rw [h1t, h2t]; rfl, fun s hs => hs⟩
  · have h1t : su.swift_engine_open = true := by simpa using h1
    have h2t : su.swift_port_open = true := by simpa using h2
    exact ⟨_, rfl, rfl, rfl, rfl, by rw [h1t]; rfl, by rw [h1t, h2t]; rfl, fun s hs => hs⟩
  · exfalso
    rcases hfail with h | h | h | h | h
    · exact h1 h
    · exact h2 h
    · exact h3 h
    · exact h4 h
    · exact h5 h

/-- C12, amended, witness: the port cannot be opened. -/
theorem C12_setup_failure_returns_zero_witness :
    ∃ e, app_exec_setup exampleApi { goodSetup with swift_port_open := false } = some e ∧
      e.res = 0 ∧ e.engine_closed = true ∧ e.port_closed = false :=
  (C12_setup_failure_returns_zero exampleApi { goodSetup with swift_port_open := false }
      (Or.inr (Or.inl rfl))).elim
    (fun e h => ⟨e, h.1, h.2.1, h.2.2.2.2.1, h.2.2.2.2.2.1⟩)

/-- C13: in every session met at the head of the loop, for every sequence of
callback events and passes of the loop body, the callback thread holding the
lock wherever the main thread does not (also between the loop test, the body
and the stop check of a pass), `swift_port_stop` has been called at most once
and not at all while `immediate_exit` is unset.  A pass that is entered leaves
exactly one call on record when its stop check finds `immediate_exit` set and
`generating_done` unset, and none otherwise; a pass in which `ast_waitfor`
reports a hangup, `ast_read` returns NULL or a digit qualifies ends with
`immediate_exit` set, so that it calls once if `generating_done` is still
unset at its stop check and not at all if the end-of-stream event came first.
Once `immediate_exit` is set, `swift_generator_running` is 0 at the next test,
whatever the callback does in between, so no further pass can call it again.
The same bound holds for the session the loop is left with, and the digit
collection after the loop calls it never. -/
theorem C13_stop_requested_at_most_once (api : swift_h) (cfg : settings)
    (heap : Int → Nat) (now : Int) (s : session)
    (h : LoopReachable api cfg heap now s) :
    s.stops ≤ 1 ∧ (s.ps.immediate_exit = 0 → s.stops = 0) ∧
      (∀ (cbs : pass_callbacks) (inp : pump_input) (s1 : session),
        swift_generator_running s.ps ≠ 0 →
        app_exec_pass api cfg cbs inp s = Except.ok s1 →
        s1.stops = (if s1.ps.immediate_exit ≠ 0 ∧ s1.ps.generating_done = 0 then 1 else 0) ∧
        (inp.ms > 0 →
          (inp.ast_waitfor < 0 ∨ (inp.ast_waitfor > 0 ∧ inp.ast_read = none) ∨
            (inp.ast_waitfor > 0 ∧ ∃ f, inp.ast_read = some f ∧
              f.frametype = ast_frame_type.AST_FRAME_DTMF ∧ cfg.timeout > 0 ∧
              cfg.max_digits > 0)) →
          s1.ps.immediate_exit ≠ 0 ∧
          s1.stops = (if s1.ps.generating_done = 0 then 1 else 0)) ∧
        (s1.ps.immediate_exit ≠ 0 →
          swift_generator_running s1.ps = 0 ∧
          ∀ ev : swift_event, swift_generator_running
            (cb_after s1.ps (swift_cb_step api cfg.cfg_buffer_size s1.ps ev)) = 0)) ∧
      (∀ (evs : List session_event) (s1 : session),
        app_exec_loop api cfg evs s = Except.ok (some s1) →
        s1.stops ≤ 1 ∧ (s1.ps.immediate_exit = 0 → s1.stops = 0)) ∧
      (∀ (chan : Nat → Int) (s2 : session),
        app_exec_listen cfg chan s = Except.ok s2 → s2.stops = s.stops) := by
  obtain ⟨h1, h2⟩ := loopReachable_stops api cfg heap now s h
  have hoff : ∀ ps : stuff, ps.immediate_exit ≠ 0 → swift_generator_running ps = 0 := by
    intro ps he
    unfold swift_generator_running
    rw [if_neg (fun hc => he hc.1)]
  refine ⟨h1, h2, ?_, ?_, ?_⟩
  · intro cbs inp s1 hrun hstep
    have hst := app_exec_pass_stops api cfg cbs inp s s1 hstep
    rw [h2 (running_exit_unset s.ps hrun), Nat.zero_add] at hst
    refine ⟨hst, ?_, ?_⟩
    · intro hms hcancel
      have he := app_exec_pass_cancel api cfg cbs inp s s1 hstep hms hcancel
      refine ⟨he, ?_⟩
      rw [hst]
      by_cases hg : s1.ps.generating_done = 0
      · rw [if_pos ⟨he, hg⟩, if_pos hg]
      · rw [if_neg (fun hc => hg hc.2), if_neg hg]
    · intro he
      refine ⟨hoff _ he, ?_⟩
      intro ev
      apply hoff
      rw [cb_after_flags]
      exact he
  · intro evs s1 hloop
    exact loopReachable_stops api cfg heap now s1
      (app_exec_loop_reachable api cfg heap now evs s s1 h hloop)
  · intro chan s2 hl
    exact app_exec_listen_stops cfg chan s s2 hl

/-- C13, witness: two first passes of a session in which `ast_waitfor` reports
a hangup.  In the one the end-of-stream event is delivered during
`ast_waitfor`: the stop check finds `generating_done` set and `swift_port_stop`
is not called.  In the other no callback comes in between: one call. -/
theorem C13_stop_requested_at_most_once_witness :
    (endThenHangup.ps.immediate_exit, endThenHangup.ps.generating_done, endThenHangup.stops)
        = (1, 1, 0) ∧
      endThenHangup.stops ≤ 1 ∧
      (hungUpSession.ps.immediate_exit, hungUpSession.ps.generating_done, hungUpSession.stops)
        = (1, 0, 1) ∧
      hungUpSession.stops ≤ 1 :=
  ⟨by decide,
    (C13_stop_requested_at_most_once exampleApi exampleCfg (fun _ => 0) 0 endThenHangup
      (LoopReachable.pump (app_exec_start (fun _ => 0) 0) endThenHangup endDuringWait
        hangupInput LoopReachable.start (by decide) rfl)).1,
    by decide,
    (C13_stop_requested_at_most_once exampleApi exampleCfg (fun _ => 0) 0 hungUpSession
      (LoopReachable.pump (app_exec_start (fun _ => 0) 0) hungUpSession noCallbacks
        hangupInput LoopReachable.start (by decide) rfl)).1⟩

/-- C14: from a session the callback and the loop body can produce, a pass at
the deadline with bytes queued writes exactly one frame, of
n = min(framesize, qc) bytes, 1 <= n <= framesize, and moves the deadline by
`ast_samp2tv(n, samplerate)`, which for the rate 8000 of `load_module` and the
modelled `ast_samp2tv` is n x 125 microseconds, whatever the count is beyond
`framesize`.  Over any events after it the deadline never decreases, and when
none of the passes is an underrun it ends at the deadline of the start plus
125 microseconds for each byte of the frames written since. -/
theorem C14_deadline_advances_by_frame_time (api : swift_h) (cfg : settings)
    (heap : Int → Nat) (now : Int) (s : session) (inp : pump_input)
    (hreach : Reachable api cfg heap now s) (hms : inp.ms ≤ 0) (hpos : 0 < s.ps.qc) :
    (∃ s1 frame, app_exec_iteration cfg inp s = Except.ok s1 ∧
        s1.frames = s.frames ++ [frame] ∧
        (frame.length : Int) = min framesize s.ps.qc ∧
        1 ≤ (frame.length : Int) ∧ (frame.length : Int) ≤ framesize ∧
        s1.next = s.next + cfg.ast_samp2tv (frame.length : Int) cfg.samplerate ∧
        (Paced cfg → s1.next = s.next + 125 * (frame.length : Int))) ∧
      (∀ (evs : List session_event) (s2 : session), Paced cfg →
        session_run api cfg evs s = Except.ok s2 →
        s.next ≤ s2.next ∧
          (noUnderrun api cfg evs s = true →
            s2.next = s.next + 125 * (frameBytes s2.frames - frameBytes s.frames))) := by
  have hinv := reachable_rbInv api cfg heap now s hreach
  constructor
  · have hit : ∃ s1, app_exec_iteration cfg inp s = Except.ok s1 := by
      obtain ⟨s2, hs2⟩ := app_exec_deadline_fits cfg s hinv
      unfold app_exec_iteration
      rw [if_pos hms, hs2]
      exact ⟨_, rfl⟩
    obtain ⟨s1, hs1⟩ := hit
    obtain ⟨_, hA, _, _⟩ := app_exec_iteration_pacing cfg inp s s1 hinv hs1
    obtain ⟨frame, hf, hl, hn⟩ := hA hms hpos
    have hmin1 : 1 ≤ min framesize s.ps.qc := le_min (by decide) (by omega)
    have hmin2 : min framesize s.ps.qc ≤ framesize := min_le_left _ _
    refine ⟨s1, frame, hs1, hf, hl, by omega, by omega, hn, ?_⟩
    intro hp
    rw [hn, hp.2, hp.1, ast_samp2tv_8000]
  · intro evs s2 hp hrun
    exact session_run_paced api cfg hp evs s s2 hinv hrun

/-- C14, witness: 40 bytes queued; two passes at the deadline write two frames
of 20 bytes and move the deadline from 100000 by 2500 microseconds each. -/
theorem C14_deadline_advances_by_frame_time_witness :
    (∃ s1 frame, app_exec_iteration pacedCfg deadlineInput fortyQueuedDone = Except.ok s1 ∧
        s1.frames = fortyQueuedDone.frames ++ [frame] ∧ (frame.length : Int) = 20 ∧
        s1.next = fortyQueuedDone.next + 125 * (frame.length : Int)) ∧
      fortyQueuedDone.next = 100000 ∧
      (match session_run exampleApi pacedCfg
          [session_event.pump deadlineInput, session_event.pump deadlineInput]
          fortyQueuedDone with
        | Except.ok s2 => some (s2.next, s2.frames.map List.length)
        | Except.error _ => none) = some (105000, [20, 20]) :=
  have h := C14_deadline_advances_by_frame_time exampleApi pacedCfg (fun _ => 0) 0
    fortyQueuedDone deadlineInput
    (Reachable.callback _ swift_event.SWIFT_EVENT_END
      (Reachable.callback _ (swift_event.SWIFT_EVENT_AUDIO 0 (List.range 40))
        Reachable.start))
    (by decide) (by decide)
  ⟨h.1.elim (fun s1 h1 => h1.elim (fun frame h2 =>
      ⟨s1, frame, h2.1, h2.2.1, h2.2.2.1, h2.2.2.2.2.2.2 ⟨rfl, rfl⟩⟩)),
    by decide, by decide⟩

/-- C15: a pass at the deadline with nothing queued, `generating_done` unset
and `immediate_exit` unset writes no frame, leaves the object (storage, both
cursors, count and both flags) and the rest of the session as they were but for
the deadline, which moves by `ast_samp2tv(framesize / 2, samplerate)`, that is
10 samples, 1250 microseconds for the rate 8000 of `load_module` and the
modelled `ast_samp2tv`; `swift_generator_running` is 1 before and after, so
the loop goes on. -/
theorem C15_underrun_half_frame (cfg : settings) (inp : pump_input) (s : session)
    (hms : inp.ms ≤ 0) (hempty : s.ps.qc = 0) (hdone : s.ps.generating_done = 0)
    (hexit : s.ps.immediate_exit = 0) :
    app_exec_iteration cfg inp s
        = Except.ok { s with next := s.next + cfg.ast_samp2tv (framesize / 2) cfg.samplerate } ∧
      framesize / 2 = 10 ∧
      (Paced cfg → cfg.ast_samp2tv (framesize / 2) cfg.samplerate = 1250) ∧
      swift_generator_running s.ps = 1 ∧
      (∀ s1, app_exec_iteration cfg inp s = Except.ok s1 →
        s1.frames = s.frames ∧ s1.ps = s.ps ∧ s1.stops = s.stops ∧
        swift_generator_running s1.ps = 1) := by
  have hrun : swift_generator_running s.ps = 1 := by
    unfold swift_generator_running
    rw [if_pos ⟨hexit, Or.inl hdone⟩]
  have hit : app_exec_iteration cfg inp s
      = Except.ok { s with next := s.next + cfg.ast_samp2tv (framesize / 2) cfg.samplerate } := by
    unfold app_exec_iteration
    rw [if_pos hms]
    unfold app_exec_deadline swift_bytes_available
    rw [if_neg (by omega)]
    simp only []
    unfold app_exec_stop
    rw [if_neg (fun hc => hc.1 hexit)]
  refine ⟨hit, by decide, ?_, hrun, ?_⟩
  · intro hp
    rw [hp.2, hp.1, ast_samp2tv_8000]
    decide
  · intro s1 h1
    rw [hit] at h1
    injection h1 with h1
    subst h1
    exact ⟨rfl, rfl, rfl, hrun⟩

/-- C15, witness: the first pass of a session finds the deadline reached and
nothing queued yet: the deadline moves from 100000 to 101250. -/
theorem C15_underrun_half_frame_witness :
    app_exec_iteration pacedCfg deadlineInput (app_exec_start (fun _ => 0) 0)
        = Except.ok { app_exec_start (fun _ => 0) 0 with
            next := (app_exec_start (fun _ => 0) 0).next
              + pacedCfg.ast_samp2tv (framesize / 2) pacedCfg.samplerate } ∧
      pacedCfg.ast_samp2tv (framesize / 2) pacedCfg.samplerate = 1250 ∧
      (app_exec_start (fun _ => 0) 0).next = 100000 :=
  have h := C15_underrun_half_frame pacedCfg deadlineInput (app_exec_start (fun _ => 0) 0)
    (by decide) (by decide) (by decide) (by decide)
  ⟨h.1, h.2.2.1 ⟨rfl, rfl⟩, by decide⟩

/-- C16, counterexample: capacity 4, one write of 4 bytes from the state that
`swift_init_stuff` builds.  The write fits before the end of the block, so the
write cursor stops at offset 4 and the read cursor is at 0: the count is 4 and
(write cursor - read cursor) mod 4 is 0. -/
theorem C16_counterexample :
    rbAdmissible 4 fillExample (swift_init_stuff (fun _ => 0)) = true ∧
      (rbRun 4 fillExample (swift_init_stuff (fun _ => 0))).1.qc = 4 ∧
      (rbRun 4 fillExample (swift_init_stuff (fun _ => 0))).1.pq_w = 4 ∧
      (rbRun 4 fillExample (swift_init_stuff (fun _ => 0))).1.pq_r = 0 ∧
      ((rbRun 4 fillExample (swift_init_stuff (fun _ => 0))).1.pq_w
        - (rbRun 4 fillExample (swift_init_stuff (fun _ => 0))).1.pq_r) % 4 = 0 ∧
      (rbRun 4 fillExample (swift_init_stuff (fun _ => 0))).1.qc
        ≠ ((rbRun 4 fillExample (swift_init_stuff (fun _ => 0))).1.pq_w
          - (rbRun 4 fillExample (swift_init_stuff (fun _ => 0))).1.pq_r) % 4 := by
  decide

/-- C16, amended: in every state reachable from `swift_init_stuff` by copy
steps of `swift_cb` and drain steps of the pump on a queue of capacity C, the
count is between 0 and C and is congruent modulo C to write cursor offset minus
read cursor offset; it equals (write cursor offset - read cursor offset) mod C
whenever the queue is not full, and when the queue is full (count C) that
remainder is 0.  Both cursor offsets are between 0 and C, C included. -/
theorem C16_count_congruent_to_cursor_distance (C : Nat) (heap : Int → Nat)
    (ops : List RbOp) (hadm : rbAdmissible C ops (swift_init_stuff heap) = true) :
    0 ≤ (rbRun C ops (swift_init_stuff heap)).1.qc ∧
      (rbRun C ops (swift_init_stuff heap)).1.qc ≤ C ∧
      (rbRun C ops (swift_init_stuff heap)).1.qc % (C : Int)
        = ((rbRun C ops (swift_init_stuff heap)).1.pq_w
            - (rbRun C ops (swift_init_stuff heap)).1.pq_r) % (C : Int) ∧
      ((rbRun C ops (swift_init_stuff heap)).1.qc < C →
        (rbRun C ops (swift_init_stuff heap)).1.qc
          = ((rbRun C ops (swift_init_stuff heap)).1.pq_w
              - (rbRun C ops (swift_init_stuff heap)).1.pq_r) % (C : Int)) ∧
      ((rbRun C ops (swift_init_stuff heap)).1.qc = C →
        ((rbRun C ops (swift_init_stuff heap)).1.pq_w
            - (rbRun C ops (swift_init_stuff heap)).1.pq_r) % (C : Int) = 0) ∧
      0 ≤ (rbRun C ops (swift_init_stuff heap)).1.pq_r ∧
      (rbRun C ops (swift_init_stuff heap)).1.pq_r ≤ C ∧
      0 ≤ (rbRun C ops (swift_init_stuff heap)).1.pq_w ∧
      (rbRun C ops (swift_init_stuff heap)).1.pq_w ≤ C := by
  obtain ⟨⟨hr0, hrC, hw0, hwC, hq0, hqC, hcong, _⟩, _⟩ :=
    rbRun_queued C ops _ (rbInv_init C heap) hadm
  generalize (rbRun C ops (swift_init_stuff heap)).1 = ps at *
  have hmod : ps.qc % (C : Int) = (ps.pq_w - ps.pq_r) % (C : Int) := by
    rcases hcong with h | h | h
    · have : ps.pq_w - ps.pq_r = ps.qc := by omega
      rw [this]
    · have : ps.pq_w - ps.pq_r = ps.qc + (-1) * C := by omega
      rw [this, Int.add_mul_emod_self]
    · have : ps.pq_w - ps.pq_r = ps.qc + (-2) * C := by omega
      rw [this, Int.add_mul_emod_self]
  refine ⟨hq0, hqC, hmod, ?_, ?_, hr0, hrC, hw0, hwC⟩
  · intro hlt
    rw [← hmod, Int.emod_eq_of_lt hq0 hlt]
  · intro hfull
    rw [← hmod, hfull, Int.emod_self]

/-- C16, amended, witness: the wrap example of capacity 10 and the full queue
of capacity 4. -/
theorem C16_count_congruent_to_cursor_distance_witness :
    (rbRun 10 wrapExample (swift_init_stuff (fun _ => 0))).1.qc % 10
        = ((rbRun 10 wrapExample (swift_init_stuff (fun _ => 0))).1.pq_w
            - (rbRun 10 wrapExample (swift_init_stuff (fun _ => 0))).1.pq_r) % 10 ∧
      ((rbRun 4 fillExample (swift_init_stuff (fun _ => 0))).1.pq_w
          - (rbRun 4 fillExample (swift_init_stuff (fun _ => 0))).1.pq_r) % 4 = 0 :=
  ⟨(C16_count_congruent_to_cursor_distance 10 (fun _ => 0) wrapExample (by decide)).2.2.1,
    (C16_count_congruent_to_cursor_distance 4 (fun _ => 0) fillExample (by decide)).2.2.2.2.1
      (by decide)⟩

/-- C17: for an audio chunk longer than the capacity, the wait condition of
`swift_cb` holds in every state with `immediate_exit` unset and a count of 0 or
more, so the callback sleeps at every hold of the lock; it is still asleep after
any states with `immediate_exit` unset, and when it does return, it returns
`SWIFT_SUCCESS` from a state it met with `immediate_exit` set, which it leaves
as it found it.  For a chunk of at most the capacity, the wait condition is
false in every state with `len + qc` at most the capacity: the callback does
not sleep there, it returns when `immediate_exit` is set or `spacefree` fits
its `int`, and it crashes in the copy step otherwise. -/
theorem C17_oversized_chunk_never_fits (api : swift_h) (C : Nat) (rv : Int) (buf : List Nat)
    (hchunk : api.SWIFT_FAILED rv = false ∧ 0 < buf.length) :
    ((C : Int) < buf.length →
      (∀ ps : stuff, 0 ≤ ps.qc → ps.immediate_exit = 0 →
        ((buf.length : Int) + ps.qc > C ∧ ps.immediate_exit = 0) ∧
        ∃ t, swift_cb_step api C ps (swift_event.SWIFT_EVENT_AUDIO rv buf)
          = cb_result.sleeping t) ∧
      (∀ seen : List stuff, (∀ p ∈ seen, 0 ≤ p.qc ∧ p.immediate_exit = 0) →
        swift_cb api C (swift_event.SWIFT_EVENT_AUDIO rv buf) seen = none) ∧
      (∀ (seen : List stuff) (ps1 : stuff) (rv1 : Int), (∀ p ∈ seen, 0 ≤ p.qc) →
        swift_cb api C (swift_event.SWIFT_EVENT_AUDIO rv buf) seen = some (ps1, rv1) →
        ps1 ∈ seen ∧ ps1.immediate_exit ≠ 0 ∧ rv1 = api.SWIFT_SUCCESS)) ∧
    (∀ ps : stuff, (buf.length : Int) ≤ C → ps.qc ≤ (C : Int) - buf.length →
      ¬ ((buf.length : Int) + ps.qc > C ∧ ps.immediate_exit = 0) ∧
      (∀ t, swift_cb_step api C ps (swift_event.SWIFT_EVENT_AUDIO rv buf)
        ≠ cb_result.sleeping t) ∧
      ((ps.immediate_exit ≠ 0 ∨
          (-2147483648 ≤ (C : Int) - ps.pq_w ∧ (C : Int) - ps.pq_w ≤ 2147483647)) →
        ∃ ps1 rv1, swift_cb_step api C ps (swift_event.SWIFT_EVENT_AUDIO rv buf)
          = cb_result.returned ps1 rv1) ∧
      (ps.immediate_exit = 0 →
        ¬ (-2147483648 ≤ (C : Int) - ps.pq_w ∧ (C : Int) - ps.pq_w ≤ 2147483647) →
        swift_cb_step api C ps (swift_event.SWIFT_EVENT_AUDIO rv buf) = cb_result.crashed)) := by
  have hlen : (buf.length : Int) > 0 := by
    have := hchunk.2
    omega
  have hsleep : (C : Int) < buf.length → ∀ ps : stuff, 0 ≤ ps.qc → ps.immediate_exit = 0 →
      swift_cb_step api C ps (swift_event.SWIFT_EVENT_AUDIO rv buf)
        = cb_result.sleeping
            (((buf.length : Int) - ((C : Int) - ps.qc)) * 125 + 125 * framesize) := by
    intro hbig ps hq he
    unfold swift_cb_step
    simp only []
    rw [if_pos ⟨hchunk.1, hlen⟩, if_pos ⟨by omega, he⟩]
  constructor
  · intro hbig
    refine ⟨?_, ?_, ?_⟩
    · intro ps hq he
      exact ⟨⟨by omega, he⟩, _, hsleep hbig ps hq he⟩
    · intro seen
      induction seen with
      | nil => intro _; rfl
      | cons p seen ih =>
          intro hall
          obtain ⟨hq, he⟩ := hall p (List.mem_cons_self _ _)
          rw [swift_cb, hsleep hbig p hq he]
          exact ih (fun r hr => hall r (List.mem_cons_of_mem _ hr))
    · intro seen
      induction seen with
      | nil =>
          intro ps1 rv1 _ h
          exact absurd h (by simp [swift_cb])
      | cons p seen ih =>
          intro ps1 rv1 hall h
          have hq := hall p (List.mem_cons_self _ _)
          by_cases he : p.immediate_exit = 0
          · rw [swift_cb, hsleep hbig p hq he] at h
            obtain ⟨h1, h2, h3⟩ :=
              ih ps1 rv1 (fun r hr => hall r (List.mem_cons_of_mem _ hr)) h
            exact ⟨List.mem_cons_of_mem _ h1, h2, h3⟩
          · have hstep : swift_cb_step api C p (swift_event.SWIFT_EVENT_AUDIO rv buf)
                = cb_result.returned p api.SWIFT_SUCCESS := by
              unfold swift_cb_step
              simp only []
              rw [if_pos ⟨hchunk.1, hlen⟩, if_neg (fun hc => he hc.2), if_pos he]
            rw [swift_cb, hstep] at h
            simp only [Option.some.injEq, Prod.mk.injEq] at h
            obtain ⟨h1, h2⟩ := h
            subst h1
            exact ⟨List.mem_cons_self _ _, he, h2.symm⟩
  · intro ps hsmall hroom
    have hno : ¬ ((buf.length : Int) + ps.qc > C ∧ ps.immediate_exit = 0) := by
      intro hc
      omega
    have hstep : swift_cb_step api C ps (swift_event.SWIFT_EVENT_AUDIO rv buf)
        = (if ps.immediate_exit ≠ 0 then cb_result.returned ps api.SWIFT_SUCCESS
          else match swift_cb_copy C ps buf with
            | Except.ok ps1 => cb_result.returned ps1 rv
            | Except.error _ => cb_result.crashed) := by
      unfold swift_cb_step
      simp only []
      rw [if_pos ⟨hchunk.1, hlen⟩, if_neg hno]
    refine ⟨hno, ?_, ?_, ?_⟩
    · intro t
      rw [hstep]
      split_ifs
      · simp
      · cases swift_cb_copy C ps buf <;> simp
    · intro hret
      rw [hstep]
      split_ifs with he
      · exact ⟨_, _, rfl⟩
      · have hfits : -2147483648 ≤ (C : Int) - ps.pq_w ∧ (C : Int) - ps.pq_w ≤ 2147483647 := by
          rcases hret with h | h
          · exact absurd h he
          · exact h
        unfold swift_cb_copy
        simp only []
        rw [int_of_ok _ hfits.1 hfits.2]
        simp only []
        split_ifs
        · exact ⟨_, _, rfl⟩
        · exact ⟨_, _, rfl⟩
    · intro he hnofit
      rw [hstep, if_neg (not_not.mpr he)]
      unfold swift_cb_copy int_of
      simp only []
      rw [if_neg hnofit]

/-- C17, witness: capacity 4 and a chunk of 5 bytes: the callback sleeps on the
empty queue, is asleep still after two looks at it, and returns only when it
finds `immediate_exit` set. -/
theorem C17_oversized_chunk_never_fits_witness :
    swift_cb exampleApi 4 (swift_event.SWIFT_EVENT_AUDIO 0 [1, 2, 3, 4, 5])
        [swift_init_stuff (fun _ => 0), swift_init_stuff (fun _ => 0)] = none ∧
      (swift_cb exampleApi 4 (swift_event.SWIFT_EVENT_AUDIO 0 [1, 2, 3, 4, 5])
        [swift_init_stuff (fun _ => 0),
          { swift_init_stuff (fun _ => 0) with immediate_exit := 1 }]).map
          (fun r => (r.1.qc, r.1.pq_w, r.1.immediate_exit, r.2))
        = some (0, 0, 1, 0) :=
  ⟨(C17_oversized_chunk_never_fits exampleApi 4 0 [1, 2, 3, 4, 5] (by decide)).1
      (by decide) |>.2.1 _ (by decide),
    by decide⟩

/-- C18: for every code outside the 12 entries of `ast_dtmf_table` (a DTMF
letter, a negative wait result) `dtmf_conv` returns 0, and for every code of
the table it returns that code, which is not 0 (48 for the digit `0`).  In
`listen_for_dtmf` a wait result that is not 0 and not in the table adds no
character, counts as one pass of the loop and is followed by the next wait: a
caller who sends only such codes gets the empty string after `max_digits`
waits, and after `A`, `5` and a timeout the result is `5`, one character for
two results that were not timeouts. -/
theorem C18_unmapped_codes_are_counted_not_appended :
    (∀ d : Int, d ∉ dtmf_table_codes → dtmf_conv d = 0) ∧
      (∀ d : Int, d ∈ dtmf_table_codes → dtmf_conv d = d ∧ dtmf_conv d ≠ 0) ∧
      dtmf_conv 48 = 48 ∧ dtmf_conv 65 = 0 ∧ dtmf_conv (-1) = 0 ∧
      (∀ (chan : Nat → Int) (remaining i : Nat) (acc : List Nat),
        chan i ≠ 0 → chan i ∉ dtmf_table_codes → acc.length ≤ 99 →
        listen_for_dtmf_loop chan (remaining + 1) i acc
          = listen_for_dtmf_loop chan remaining (i + 1) acc) ∧
      (∀ (chan : Nat → Int) (timeout max_digits : Int),
        (∀ k : Nat, (k : Int) < max_digits → chan k ≠ 0 ∧ chan k ∉ dtmf_table_codes) →
        listen_for_dtmf chan timeout max_digits = Except.ok ([], max_digits.toNat)) ∧
      listen_for_dtmf letterThenFive 3000 3 = Except.ok ([53], 3) ∧
      listen_for_dtmf (fun _ => -1) 3000 4 = Except.ok ([], 4) := by
  refine ⟨dtmf_conv_unmapped, dtmf_conv_mapped, by decide, by decide, by decide, ?_, ?_,
    rfl, rfl⟩
  · intro chan remaining i acc hnz hun hacc
    exact listen_for_dtmf_loop_unmapped_step chan remaining i acc hnz hun hacc
  · intro chan timeout max_digits hall
    unfold listen_for_dtmf
    rw [listen_for_dtmf_loop_unmapped chan max_digits.toNat 0 [] (by simp)
      (fun k _ hk => hall k (by omega))]
    simp

end AppSwift
